import Mathlib

/-!
Verification of `csv_converter.py` (EpiJunkie/csv-converter).

The program is a sequential pipeline: load a source CSV and a mapping CSV,
enrich each source row with an account number (prompting the operator for
unmapped identifiers and persisting the mapping table after each addition),
and write the result to a billing CSV.

Embedding conventions:
* A Python `dict` is an insertion-ordered association list; `dsetField`
  updates an existing key in place and appends a fresh key at the end,
  matching CPython dict semantics.
* A CSV row (`Record`) is such a dict from field name to field value.
* `input()` is an oracle `Nat → String` consumed by a running counter:
  the n-th prompt of the run returns `oracle n`.
* Side effects of `convert_formats` (operator prompts, full rewrites of the
  mapping file) are recorded in an event trace.
* Python `KeyError` (subscripting a dict with a missing key) is modelled by
  `Except String`.
* File writing on Linux (`open(name, "w")`, `newline` unset) emits the
  produced characters unchanged; file reading (`encoding="utf-8-sig"`,
  `newline` unset) strips a leading byte-order mark and applies universal
  newline translation (CRLF and lone CR become LF) before the CSV parser
  sees the text. Both are modelled explicitly.
* A Python `set` of strings iterates in a hash-dependent order that is fixed
  within one interpreter process but varies between processes (string hash
  randomization). Header sets are therefore modelled as lists quantified up
  to permutation where their iteration order matters.
-/

/-! ## Ordered dictionaries (Python `dict`) -/

/-- Lookup in an insertion-ordered dict. -/
def dget {α : Type} : List (String × α) → String → Option α
  | [], _ => none
  | (k, v) :: r, key => if k = key then some v else dget r key

/-- Python `d[key] = val`: replace in place if the key exists, else append. -/
def dsetField {α : Type} : List (String × α) → String → α → List (String × α)
  | [], key, val => [(key, val)]
  | (k, v) :: r, key, val =>
      if k = key then (k, val) :: r else (k, v) :: dsetField r key val

/-- Python `del d[key]`: remove the (unique) binding of the key. -/
def ddel {α : Type} : List (String × α) → String → List (String × α)
  | [], _ => []
  | (k, v) :: r, key => if k = key then r else (k, v) :: ddel r key

/-- Key list of a dict, in insertion order (Python `d.keys()`). -/
def dkeys {α : Type} (d : List (String × α)) : List String := d.map Prod.fst

/-- Value list of a dict, in insertion order (Python `d.values()`). -/
def dvalues {α : Type} (d : List (String × α)) : List α := d.map Prod.snd

/-- One CSV row: an ordered mapping from field name to field value. -/
abbrev Record := List (String × String)

/-- The in-memory mapping table: account identifier to mapping record. -/
abbrev MappingTable := List (String × Record)

/-- Decidable equality of `Except` results, for evaluating the model on
concrete inputs. -/
instance {ε α : Type} [DecidableEq ε] [DecidableEq α] : DecidableEq (Except ε α) := fun
  | .error e1, .error e2 =>
    if h : e1 = e2 then .isTrue (by rw [h])
    else .isFalse (fun hh => h (Except.error.inj hh))
  | .error _, .ok _ => .isFalse (fun hh => Except.noConfusion hh)
  | .ok _, .error _ => .isFalse (fun hh => Except.noConfusion hh)
  | .ok a1, .ok a2 =>
    if h : a1 = a2 then .isTrue (by rw [h])
    else .isFalse (fun hh => h (Except.ok.inj hh))

/-! ## Constants from the source file -/

/-- Source line 82: the header used to match accounts across the systems. -/
def ACCOUNT_KEY : String := "Customer ID"

/-- Source lines 63-72: headers of the source CSV (a Python set; listed in
literal order, order-relevant uses are quantified up to permutation). -/
def SOURCE_HEADERS : List String :=
  ["No", "Customer ID", "Company Name", "Flat Charge",
   "Current Volume", "Current Amount", "YTD Volume", "YTD Amount"]

/-- Source lines 75-79: headers of the mapping CSV. -/
def MAPPING_HEADERS : List String :=
  ["Customer ID", "Company Name", "Account Number"]

/-- Source lines 90-100: headers of the destination (billing) CSV. -/
def BILLING_HEADERS : List String :=
  ["No", "Customer ID", "Company Name", "Account Number", "Flat Charge",
   "Current Volume", "Current Amount", "YTD Volume", "YTD Amount"]

/-- Source lines 85-87: the shipped field rename table. -/
def FIELD_NAME_CHANGE : List (String × String) :=
  [("SOURCE_FIELD_NAME", "DESTINATION_FIELD_NAME")]

/-- Source line 103 `DEFAULT_DEST_CSV_FILENAME_PREFIX` (renamed for Lean). -/
def DEST_FILENAME_STEM : String := "billing_"

/-- Source line 104: the default destination filename sentinel. -/
def DEFAULT_DEST_CSV_FILENAME : String := DEST_FILENAME_STEM ++ "YYYYMMDD_HHMM.csv"

/-! ## The enricher: `convert_formats` (source lines 112-146) -/

/-- Observable side effects of `convert_formats`: an operator prompt
(`input(...)` inside `prompt_user_for_account`, line 187) and a full rewrite
of the mapping file (`write_csv(DEFAULT_MAPPING_CSV_FILENAME, ...)`,
line 134, carrying `mapping_data.values()`). -/
inductive Event where
  | prompt (id name : String)
  | writeMapping (table : List Record)
  deriving DecidableEq, Repr

/-- Mutable state threaded through the conversion loop: the mapping dict,
the number of prompts issued so far (indexing the oracle), and the trace of
side effects in order of occurrence. -/
structure ConvSt where
  mapping : MappingTable
  count : Nat
  trace : List Event
  deriving DecidableEq, Repr

/-- The body of the `for row in accounting_data` loop of `convert_formats`
(source lines 120-142) for a single row: resolve or prompt for the account
number, update and persist the mapping table if the identifier was absent,
then apply the field renames. -/
def convertStep (rename : List (String × String)) (oracle : Nat → String)
    (st : ConvSt) (row : Record) : Except String (Record × ConvSt) :=
  match dget row ACCOUNT_KEY with
  | none => .error "KeyError: Customer ID"
  | some cid =>
    match dget st.mapping cid with
    | none =>
      -- line 128: row["Account Number"] = prompt_user_for_account(...)
      match dget row "Company Name" with
      | none => .error "KeyError: Company Name"
      | some cname =>
        let acct := oracle st.count
        let row1 := dsetField row "Account Number" acct
        -- lines 129-133: mapping_data[row[ACCOUNT_KEY]] = entry
        let entry : Record :=
          [("Customer ID", cid), ("Company Name", cname), ("Account Number", acct)]
        let m1 := dsetField st.mapping cid entry
        -- lines 139-142: rename source fields
        let row2 := rename.foldl
          (fun r p =>
            match dget r p.1 with
            | none => r
            | some v => ddel (dsetField r p.2 v) p.1) row1
        .ok (row2,
          ⟨m1, st.count + 1,
           st.trace ++ [.prompt cid cname, .writeMapping (dvalues m1)]⟩)
    | some entry =>
      -- line 136: row["Account Number"] = mapping_data[key]["Account Number"]
      match dget entry "Account Number" with
      | none => .error "KeyError: Account Number"
      | some acct =>
        let row1 := dsetField row "Account Number" acct
        let row2 := rename.foldl
          (fun r p =>
            match dget r p.1 with
            | none => r
            | some v => ddel (dsetField r p.2 v) p.1) row1
        .ok (row2, ⟨st.mapping, st.count, st.trace⟩)

/-- The rename loop of lines 139-142 in isolation (same function as folded
inside `convertStep`). -/
def applyRenames (rename : List (String × String)) (r : Record) : Record :=
  rename.foldl
    (fun r p =>
      match dget r p.1 with
      | none => r
      | some v => ddel (dsetField r p.2 v) p.1) r

/-- The loop of `convert_formats` over the whole dataset, threading the
state; returns the processed rows in source order (the function returns
`accounting_data`, whose rows were mutated in place). -/
def convertGo (rename : List (String × String)) (oracle : Nat → String) :
    List Record → ConvSt → Except String (List Record × ConvSt)
  | [], st => .ok ([], st)
  | r :: rs, st =>
    match convertStep rename oracle st r with
    | .error e => .error e
    | .ok (r1, st1) =>
      match convertGo rename oracle rs st1 with
      | .error e => .error e
      | .ok (out, st2) => .ok (r1 :: out, st2)

/-- `convert_formats(accounting_data, mapping_data)` (source lines 112-146),
with the rename table and the operator oracle made explicit. -/
def convert_formats (rename : List (String × String)) (oracle : Nat → String)
    (accounting_data : List Record) (mapping_data : MappingTable) :
    Except String (List Record × ConvSt) :=
  convertGo rename oracle accounting_data ⟨mapping_data, 0, []⟩

/-! ## CSV writing: `write_csv` (source lines 209-224)

`csv.DictWriter` with `quoting=csv.QUOTE_ALL`, `delimiter=","`,
`lineterminator="\r\n"`: every field is wrapped in double quotes with
embedded quotes doubled; fields are comma-separated; each row (header
first) ends in CRLF. A row dict holding a key outside the field names
raises `ValueError`; a missing key is written as the empty string. On
Linux the text layer writes the characters unchanged. -/

/-- Double every quote character (the `doublequote=True` dialect). -/
def escapeQuotes : List Char → List Char
  | [] => []
  | c :: cs => if c = '"' then '"' :: '"' :: escapeQuotes cs else c :: escapeQuotes cs

/-- One field under QUOTE_ALL: always wrapped in quotes. -/
def renderField (s : String) : List Char := '"' :: (escapeQuotes s.data ++ ['"'])

/-- Comma-separated rendered fields of one row. -/
def joinFields : List String → List Char
  | [] => []
  | [f] => renderField f
  | f :: fs => renderField f ++ ',' :: joinFields fs

/-- One CSV line, CRLF-terminated. -/
def renderLine (fs : List String) : List Char := joinFields fs ++ ['\r', '\n']

/-- A sequence of CSV lines. -/
def renderTable : List (List String) → List Char
  | [] => []
  | r :: rs => renderLine r ++ renderTable rs

/-- `DictWriter._dict_to_list`: project a row dict onto the field names, in
header order; a key outside the header set raises `ValueError`
(`extrasaction="raise"`), a missing key falls back to `restval=None`,
written as the empty string. -/
def rowToFields (hdr : List String) (r : Record) : Except String (List String) :=
  if (dkeys r).all (fun k => hdr.contains k) then
    .ok (hdr.map (fun h => (dget r h).getD ""))
  else .error "ValueError: dict contains fields not in fieldnames"

/-- The `wr.writerows(dataset)` loop: serialize each row dict in order,
stopping at the first `ValueError`. -/
def writeRowsE (hdr : List String) : List Record → Except String (List (List String))
  | [] => .ok []
  | r :: rs =>
    match rowToFields hdr r with
    | .error e => .error e
    | .ok fs =>
      match writeRowsE hdr rs with
      | .error e => .error e
      | .ok rest => .ok (fs :: rest)

/-- `write_csv(filename, headers, dataset)` as a pure function from the
header iteration order and the dataset to the text written to the file. -/
def write_csv (hdr : List String) (dataset : List Record) : Except String String :=
  (writeRowsE hdr dataset).map (fun rows => String.mk (renderTable (hdr :: rows)))

/-! ## CSV reading: `load_csv` (source lines 149-178)

`open(filename, encoding="utf-8-sig")` strips a leading byte-order mark and
(text mode, `newline` unset) applies universal newline translation; then
`csv.DictReader` parses comma-delimited rows with `"` quoting (doubled
quotes inside quoted fields), takes the first row as the header, skips
blank rows, and zips each remaining row with the header. -/

/-- Universal newline translation of Python text mode reads: CRLF and lone
CR both become LF. -/
def univNewlines : List Char → List Char
  | [] => []
  | [c] => if c = '\r' then ['\n'] else [c]
  | c1 :: c2 :: cs =>
    if c1 = '\r' then
      if c2 = '\n' then '\n' :: univNewlines cs
      else '\n' :: univNewlines (c2 :: cs)
    else c1 :: univNewlines (c2 :: cs)

/-- Strip a leading byte-order mark (the `utf-8-sig` codec). -/
def stripBOM : List Char → List Char
  | [] => []
  | c :: cs => if c = '\uFEFF' then cs else c :: cs

/-- Parser modes: start of a field, inside an unquoted field, inside a
quoted field, after the closing quote of a quoted field. -/
inductive CsvMode where
  | fstart
  | unq
  | quoted
  | afterq
  deriving DecidableEq, Repr

/-- The CSV reader as a character-driven state machine over LF-terminated
text: `f` is the current field, `row` the fields completed so far on this
line, `rows` the completed lines. A quote at field start opens a quoted
field; inside a quoted field a doubled quote is a literal quote and a
single quote closes the field; elsewhere quotes are literal characters. -/
def csvRun : List Char → CsvMode → List Char → List String → List (List String) →
    List (List String)
  | [], .fstart, _, row, rows => if row.isEmpty then rows else rows ++ [row ++ [""]]
  | [], .unq, f, row, rows => rows ++ [row ++ [String.mk f]]
  | [], .quoted, f, row, rows => rows ++ [row ++ [String.mk f]]
  | [], .afterq, f, row, rows => rows ++ [row ++ [String.mk f]]
  | c :: cs, .fstart, _, row, rows =>
    if c = '"' then csvRun cs .quoted [] row rows
    else if c = ',' then csvRun cs .fstart [] (row ++ [""]) rows
    else if c = '\n' then
      csvRun cs .fstart [] [] (rows ++ [if row.isEmpty then [] else row ++ [""]])
    else csvRun cs .unq [c] row rows
  | c :: cs, .unq, f, row, rows =>
    if c = ',' then csvRun cs .fstart [] (row ++ [String.mk f]) rows
    else if c = '\n' then csvRun cs .fstart [] [] (rows ++ [row ++ [String.mk f]])
    else csvRun cs .unq (f ++ [c]) row rows
  | [c], .quoted, f, row, rows =>
    if c = '"' then rows ++ [row ++ [String.mk f]]
    else rows ++ [row ++ [String.mk (f ++ [c])]]
  | c1 :: c2 :: cs, .quoted, f, row, rows =>
    if c1 = '"' then
      if c2 = '"' then csvRun cs .quoted (f ++ ['"']) row rows
      else csvRun (c2 :: cs) .afterq f row rows
    else csvRun (c2 :: cs) .quoted (f ++ [c1]) row rows
  | c :: cs, .afterq, f, row, rows =>
    if c = ',' then csvRun cs .fstart [] (row ++ [String.mk f]) rows
    else if c = '\n' then csvRun cs .fstart [] [] (rows ++ [row ++ [String.mk f]])
    else csvRun cs .afterq (f ++ [c]) row rows

/-- Parse LF-terminated CSV text into rows of fields. -/
def parseCsv (s : List Char) : List (List String) := csvRun s .fstart [] [] []

/-- The LF-terminated form of a rendered table: what universal newline
translation makes of `renderTable` output when no field contains a
carriage return. -/
def lfJoin : List (List String) → List Char
  | [] => []
  | r :: t => joinFields r ++ '\n' :: lfJoin t

/-- `dict(zip(fieldnames, row))` of `DictReader`. -/
def zipRow (hdr : List String) (fs : List String) : Record :=
  (List.zip hdr fs).foldl (fun r p => dsetField r p.1 p.2) []

/-- `DictReader` iteration: header from the first row, blank rows skipped,
remaining rows zipped with the header. -/
def readerRows (s : List Char) : List Record :=
  match parseCsv s with
  | [] => []
  | hdr :: rest => (rest.filter (fun r => !r.isEmpty)).map (zipRow hdr)

/-- `load_csv` with `load_as_dict=False`: the ordered record sequence. -/
def load_csv_list (content : String) : List Record :=
  readerRows (univNewlines (stripBOM content.data))

/-- The keyed-accumulation loop of `load_csv` (source lines 170-175):
`dataset[row[ACCOUNT_KEY]] = row`, later rows silently overwriting. -/
def loadAsDict (rows : List Record) : Except String MappingTable :=
  rows.foldlM (fun m r =>
    match dget r ACCOUNT_KEY with
    | none => .error "KeyError: Customer ID"
    | some k => .ok (dsetField m k r)) []

/-- `load_csv` with `load_as_dict=True`. -/
def load_csv_dict (content : String) : Except String MappingTable :=
  loadAsDict (load_csv_list content)

/-! ## Writer: `write_billing_csv` (source lines 190-206) -/

/-- A reading of the local clock, as consumed by `strftime`. -/
structure LocalTime where
  year : Nat
  month : Nat
  day : Nat
  hour : Nat
  minute : Nat
  deriving DecidableEq, Repr

/-- Zero-pad a number to a width (the behaviour of the `%Y %m %d %H %M`
format codes for in-range values). -/
def padNum (width n : Nat) : String :=
  let s := toString n
  String.mk (List.replicate (width - s.length) '0') ++ s

/-- `timestamp.strftime("%Y%m%d_%H%M")` (source line 201). -/
def strftime_YmdHM (t : LocalTime) : String :=
  padNum 4 t.year ++ padNum 2 t.month ++ padNum 2 t.day ++ "_" ++
    padNum 2 t.hour ++ padNum 2 t.minute

/-- The filename policy of `write_billing_csv` (source lines 196-204). -/
def billing_filename (user_filename : String) (now : LocalTime) : String :=
  if user_filename = DEFAULT_DEST_CSV_FILENAME then
    DEST_FILENAME_STEM ++ strftime_YmdHM now ++ ".csv"
  else user_filename

/-- `write_billing_csv(data, user_filename)`: the chosen output filename and
the text written there, given the clock and the iteration order of the
`BILLING_HEADERS` set. -/
def write_billing_csv (data : List Record) (user_filename : String) (now : LocalTime)
    (hdr : List String) : Except String (String × String) :=
  (write_csv hdr data).map (fun content => (billing_filename user_filename now, content))

/-- One whole run over already-loaded data (source lines 303-309): convert,
then write the billing file. Returns the output filename, the bytes written
to it, and the final conversion state (mapping, prompt count, trace). -/
def runConverter (oracle : Nat → String) (hdr : List String)
    (sourceRows : List Record) (mapping : MappingTable)
    (user_filename : String) (now : LocalTime) :
    Except String (String × String × ConvSt) :=
  match convert_formats FIELD_NAME_CHANGE oracle sourceRows mapping with
  | .error e => .error e
  | .ok (out, st) =>
    match write_billing_csv out user_filename now hdr with
    | .error e => .error e
    | .ok (fn, content) => .ok (fn, content, st)

/-! ## Dictionary lemmas -/

theorem dget_dsetField_same {α : Type} (d : List (String × α)) (k : String) (v : α) :
    dget (dsetField d k v) k = some v := by
  induction d with
  | nil => simp [dget, dsetField]
  | cons p r ih =>
    by_cases h : p.1 = k
    · simp [dget, dsetField, h]
    · simp [dget, dsetField, h, ih]

theorem dget_dsetField_other {α : Type} (d : List (String × α)) (k k' : String) (v : α)
    (h : k' ≠ k) : dget (dsetField d k v) k' = dget d k' := by
  induction d with
  | nil => simp [dget, dsetField, Ne.symm h]
  | cons p r ih =>
    by_cases hp : p.1 = k
    · simp [dget, dsetField, hp, Ne.symm h]
    · by_cases hp' : p.1 = k'
      · simp [dget, dsetField, hp, hp', h]
      · simp [dget, dsetField, hp, hp', ih]

theorem dget_ddel_of_ne {α : Type} (d : List (String × α)) (k k' : String)
    (h : k' ≠ k) : dget (ddel d k) k' = dget d k' := by
  induction d with
  | nil => simp [ddel]
  | cons p r ih =>
    by_cases hp : p.1 = k
    · simp [ddel, dget, hp, Ne.symm h]
    · by_cases hp' : p.1 = k'
      · simp [ddel, dget, hp, hp', h]
      · simp [ddel, dget, hp, hp', ih]

theorem dsetField_of_absent {α : Type} (d : List (String × α)) (k : String) (v : α)
    (h : dget d k = none) : dsetField d k v = d ++ [(k, v)] := by
  induction d with
  | nil => simp [dsetField]
  | cons p r ih =>
    by_cases hp : p.1 = k
    · simp [dget, hp] at h
    · simp only [dget, if_neg hp] at h
      simp [dsetField, hp, ih h]

theorem dget_applyRenames (rename : List (String × String)) (r : Record) (k : String)
    (h1 : ∀ p ∈ rename, k ≠ p.1) (h2 : ∀ p ∈ rename, k ≠ p.2) :
    dget (applyRenames rename r) k = dget r k := by
  induction rename generalizing r with
  | nil => simp [applyRenames]
  | cons p ren ih =>
    have hstep : ∀ r : Record,
        dget (match dget r p.1 with
              | none => r
              | some v => ddel (dsetField r p.2 v) p.1) k = dget r k := by
      intro r
      cases hr : dget r p.1 with
      | none => simp
      | some v =>
        simp only []
        rw [dget_ddel_of_ne _ _ _ (h1 p (by simp)),
            dget_dsetField_other _ _ _ _ (h2 p (by simp))]
    simp only [applyRenames, List.foldl_cons]
    have hih := ih (match dget r p.1 with
                | none => r
                | some v => ddel (dsetField r p.2 v) p.1)
      (fun q hq => h1 q (by simp [hq])) (fun q hq => h2 q (by simp [hq]))
    simp only [applyRenames] at hih
    rw [hih, hstep]

theorem dkeys_dsetField_of_absent {α : Type} (d : List (String × α)) (k : String) (v : α)
    (h : dget d k = none) : dkeys (dsetField d k v) = dkeys d ++ [k] := by
  rw [dsetField_of_absent d k v h]
  simp [dkeys]

/-! ## Unfolding equations for the conversion step -/

/-- The absent-identifier branch of the loop body (lines 127-134): prompt,
record the answer in the row, extend the mapping, persist, rename. -/
theorem convertStep_absent_eq (rename : List (String × String)) (oracle : Nat → String)
    (st : ConvSt) (row : Record) (cid cname : String)
    (hcid : dget row ACCOUNT_KEY = some cid)
    (hm : dget st.mapping cid = none)
    (hcn : dget row "Company Name" = some cname) :
    convertStep rename oracle st row =
      .ok (applyRenames rename (dsetField row "Account Number" (oracle st.count)),
        ⟨dsetField st.mapping cid
           [("Customer ID", cid), ("Company Name", cname),
            ("Account Number", oracle st.count)],
         st.count + 1,
         st.trace ++ [.prompt cid cname,
           .writeMapping (dvalues (dsetField st.mapping cid
             [("Customer ID", cid), ("Company Name", cname),
              ("Account Number", oracle st.count)]))]⟩) := by
  unfold convertStep
  simp only [hcid, hm, hcn]
  rfl

/-- The present-identifier branch of the loop body (line 136): copy the
stored account number, rename; state unchanged. -/
theorem convertStep_present_eq (rename : List (String × String)) (oracle : Nat → String)
    (st : ConvSt) (row : Record) (cid : String) (entry : Record) (acct : String)
    (hcid : dget row ACCOUNT_KEY = some cid)
    (hm : dget st.mapping cid = some entry)
    (ha : dget entry "Account Number" = some acct) :
    convertStep rename oracle st row =
      .ok (applyRenames rename (dsetField row "Account Number" acct), st) := by
  unfold convertStep
  simp only [hcid, hm, ha]
  rfl

/-- The conversion loop body only appends to the event trace. -/
theorem convertStep_trace_mono (rename : List (String × String)) (oracle : Nat → String)
    (st : ConvSt) (r r1 : Record) (st1 : ConvSt)
    (h : convertStep rename oracle st r = .ok (r1, st1)) :
    ∃ t, st1.trace = st.trace ++ t := by
  unfold convertStep at h
  cases hcid : dget r ACCOUNT_KEY with
  | none => simp [hcid] at h
  | some cid =>
    cases hm : dget st.mapping cid with
    | none =>
      cases hcn : dget r "Company Name" with
      | none => simp [hcid, hm, hcn] at h
      | some cname =>
        simp only [hcid, hm, hcn] at h
        obtain ⟨-, hst⟩ := Prod.mk.injEq .. ▸ (Except.ok.inj h)
        exact ⟨_, by rw [← hst]⟩
    | some entry =>
      cases ha : dget entry "Account Number" with
      | none => simp [hcid, hm, ha] at h
      | some acct =>
        simp only [hcid, hm, ha] at h
        obtain ⟨-, hst⟩ := Prod.mk.injEq .. ▸ (Except.ok.inj h)
        exact ⟨[], by rw [← hst]; simp⟩

/-- The whole conversion loop only appends to the event trace. -/
theorem convertGo_trace_mono (rename : List (String × String)) (oracle : Nat → String)
    (rs : List Record) (st : ConvSt) (out : List Record) (stf : ConvSt)
    (h : convertGo rename oracle rs st = .ok (out, stf)) :
    ∃ t, stf.trace = st.trace ++ t := by
  induction rs generalizing st out with
  | nil =>
    simp only [convertGo, Except.ok.injEq, Prod.mk.injEq] at h
    exact ⟨[], by rw [← h.2]; simp⟩
  | cons r rs ih =>
    cases hs : convertStep rename oracle st r with
    | error e => simp [convertGo, hs] at h
    | ok p =>
      obtain ⟨r1, st1⟩ := p
      simp only [convertGo, hs] at h
      cases hg : convertGo rename oracle rs st1 with
      | error e => simp [hg] at h
      | ok q =>
        obtain ⟨out1, st2⟩ := q
        simp only [hg, Except.ok.injEq, Prod.mk.injEq] at h
        obtain ⟨hout, hst⟩ := h
        subst hst
        obtain ⟨t1, ht1⟩ := convertStep_trace_mono rename oracle st r r1 st1 hs
        obtain ⟨t2, ht2⟩ := ih st1 out1 hg
        exact ⟨t1 ++ t2, by rw [ht2, ht1, List.append_assoc]⟩

/-! ## Claims about the enricher branches -/

/-- C1: for every source row whose Customer ID is absent from the mapping
table, the loop body issues exactly one operator prompt, the mapping table
gains exactly one new entry keyed by that identifier (holding the
identifier, the display name, and the supplied account number), and the
entire new table is handed to the mapping-file write before any later row
is processed (the write event precedes every event of subsequent rows). -/
theorem claim_C1_absent_prompts_once_and_persists
    (oracle : Nat → String) (st : ConvSt) (row : Record) (rs : List Record)
    (cid cname : String)
    (hcid : dget row ACCOUNT_KEY = some cid)
    (hcn : dget row "Company Name" = some cname)
    (hm : dget st.mapping cid = none) :
    convertStep FIELD_NAME_CHANGE oracle st row =
      .ok (applyRenames FIELD_NAME_CHANGE
             (dsetField row "Account Number" (oracle st.count)),
           ⟨st.mapping ++ [(cid,
              [("Customer ID", cid), ("Company Name", cname),
               ("Account Number", oracle st.count)])],
            st.count + 1,
            st.trace ++ [.prompt cid cname,
              .writeMapping (dvalues st.mapping ++
                [[("Customer ID", cid), ("Company Name", cname),
                  ("Account Number", oracle st.count)]])]⟩) ∧
    dkeys (st.mapping ++ [(cid,
        [("Customer ID", cid), ("Company Name", cname),
         ("Account Number", oracle st.count)])]) = dkeys st.mapping ++ [cid] ∧
    dget (st.mapping ++ [(cid,
        [("Customer ID", cid), ("Company Name", cname),
         ("Account Number", oracle st.count)])]) cid =
      some [("Customer ID", cid), ("Company Name", cname),
            ("Account Number", oracle st.count)] ∧
    (∀ out stf,
      convertGo FIELD_NAME_CHANGE oracle (row :: rs) st = .ok (out, stf) →
      ∃ t, stf.trace = st.trace ++ [.prompt cid cname,
        .writeMapping (dvalues st.mapping ++
          [[("Customer ID", cid), ("Company Name", cname),
            ("Account Number", oracle st.count)]])] ++ t) := by
  have hstep := convertStep_absent_eq FIELD_NAME_CHANGE oracle st row cid cname hcid hm hcn
  rw [dsetField_of_absent st.mapping cid _ hm] at hstep
  have hdv : dvalues (st.mapping ++ [(cid,
      [("Customer ID", cid), ("Company Name", cname),
       ("Account Number", oracle st.count)])]) =
      dvalues st.mapping ++
        [[("Customer ID", cid), ("Company Name", cname),
          ("Account Number", oracle st.count)]] := by
    simp [dvalues]
  rw [hdv] at hstep
  refine ⟨hstep, by simp [dkeys], ?_, ?_⟩
  · rw [← dsetField_of_absent st.mapping cid _ hm]
    exact dget_dsetField_same _ _ _
  · intro out stf hgo
    simp only [convertGo, hstep] at hgo
    cases hg : convertGo FIELD_NAME_CHANGE oracle rs
        ⟨st.mapping ++ [(cid,
           [("Customer ID", cid), ("Company Name", cname),
            ("Account Number", oracle st.count)])],
         st.count + 1,
         st.trace ++ [.prompt cid cname,
           .writeMapping (dvalues st.mapping ++
             [[("Customer ID", cid), ("Company Name", cname),
               ("Account Number", oracle st.count)]])]⟩ with
    | error e => simp [hg] at hgo
    | ok q =>
      obtain ⟨out1, st2⟩ := q
      simp only [hg, Except.ok.injEq, Prod.mk.injEq] at hgo
      obtain ⟨-, hst⟩ := hgo
      subst hst
      obtain ⟨t, ht⟩ := convertGo_trace_mono _ _ _ _ _ _ hg
      exact ⟨t, ht⟩

/-- C1 witness: a concrete absent-identifier row through the loop body. -/
theorem claim_C1_absent_prompts_once_and_persists_witness :
    convertStep FIELD_NAME_CHANGE (fun _ => "ACC-1") ⟨[], 0, []⟩
        [("No", "1"), ("Customer ID", "C1"), ("Company Name", "Acme")] =
      .ok (applyRenames FIELD_NAME_CHANGE
             (dsetField [("No", "1"), ("Customer ID", "C1"), ("Company Name", "Acme")]
                "Account Number" "ACC-1"),
           ⟨[("C1", [("Customer ID", "C1"), ("Company Name", "Acme"),
                     ("Account Number", "ACC-1")])],
            1,
            [.prompt "C1" "Acme",
             .writeMapping [[("Customer ID", "C1"), ("Company Name", "Acme"),
                             ("Account Number", "ACC-1")]]]⟩) ∧
    dkeys ([("C1", [("Customer ID", "C1"), ("Company Name", "Acme"),
                    ("Account Number", "ACC-1")])] : MappingTable) = ["C1"] ∧
    dget ([("C1", [("Customer ID", "C1"), ("Company Name", "Acme"),
                   ("Account Number", "ACC-1")])] : MappingTable) "C1" =
      some [("Customer ID", "C1"), ("Company Name", "Acme"),
            ("Account Number", "ACC-1")] ∧
    (∀ out stf,
      convertGo FIELD_NAME_CHANGE (fun _ => "ACC-1")
          [[("No", "1"), ("Customer ID", "C1"), ("Company Name", "Acme")]]
          ⟨[], 0, []⟩ = .ok (out, stf) →
      ∃ t, stf.trace = [.prompt "C1" "Acme",
        .writeMapping [[("Customer ID", "C1"), ("Company Name", "Acme"),
                        ("Account Number", "ACC-1")]]] ++ t) :=
  claim_C1_absent_prompts_once_and_persists (fun _ => "ACC-1") ⟨[], 0, []⟩
    [("No", "1"), ("Customer ID", "C1"), ("Company Name", "Acme")] []
    "C1" "Acme" (by decide) (by decide) (by decide)

/-- C2: for every source row whose Customer ID is already in the mapping
table, the loop body returns the state unchanged (so no prompt and no
mapping write occurs for that row), the processed row's Account Number
equals the table's stored value, and that processed row is the one emitted
at this position of the output sequence. -/
theorem claim_C2_present_copies_account_no_prompt
    (oracle : Nat → String) (st : ConvSt) (row : Record) (rs : List Record)
    (cid : String) (entry : Record) (acct : String)
    (hcid : dget row ACCOUNT_KEY = some cid)
    (hm : dget st.mapping cid = some entry)
    (ha : dget entry "Account Number" = some acct) :
    convertStep FIELD_NAME_CHANGE oracle st row =
      .ok (applyRenames FIELD_NAME_CHANGE (dsetField row "Account Number" acct), st) ∧
    dget (applyRenames FIELD_NAME_CHANGE (dsetField row "Account Number" acct))
        "Account Number" = some acct ∧
    (∀ out stf,
      convertGo FIELD_NAME_CHANGE oracle (row :: rs) st = .ok (out, stf) →
      ∃ rest,
        out = applyRenames FIELD_NAME_CHANGE (dsetField row "Account Number" acct)
          :: rest) := by
  have hstep := convertStep_present_eq FIELD_NAME_CHANGE oracle st row cid entry acct
    hcid hm ha
  refine ⟨hstep, ?_, ?_⟩
  · rw [dget_applyRenames _ _ _ (by decide) (by decide)]
    exact dget_dsetField_same _ _ _
  · intro out stf hgo
    simp only [convertGo, hstep] at hgo
    cases hg : convertGo FIELD_NAME_CHANGE oracle rs st with
    | error e => simp [hg] at hgo
    | ok q =>
      obtain ⟨out1, st2⟩ := q
      simp only [hg, Except.ok.injEq, Prod.mk.injEq] at hgo
      exact ⟨out1, hgo.1.symm⟩

/-- C2 witness: a concrete already-mapped row through the loop body. -/
theorem claim_C2_present_copies_account_no_prompt_witness :
    convertStep FIELD_NAME_CHANGE (fun _ => "UNUSED")
        ⟨[("C1", [("Customer ID", "C1"), ("Company Name", "Acme"),
                  ("Account Number", "ACC-9")])], 0, []⟩
        [("No", "1"), ("Customer ID", "C1"), ("Company Name", "Acme")] =
      .ok (applyRenames FIELD_NAME_CHANGE
             (dsetField [("No", "1"), ("Customer ID", "C1"), ("Company Name", "Acme")]
                "Account Number" "ACC-9"),
           ⟨[("C1", [("Customer ID", "C1"), ("Company Name", "Acme"),
                     ("Account Number", "ACC-9")])], 0, []⟩) ∧
    dget (applyRenames FIELD_NAME_CHANGE
            (dsetField [("No", "1"), ("Customer ID", "C1"), ("Company Name", "Acme")]
               "Account Number" "ACC-9")) "Account Number" = some "ACC-9" ∧
    (∀ out stf,
      convertGo FIELD_NAME_CHANGE (fun _ => "UNUSED")
          [[("No", "1"), ("Customer ID", "C1"), ("Company Name", "Acme")]]
          ⟨[("C1", [("Customer ID", "C1"), ("Company Name", "Acme"),
                    ("Account Number", "ACC-9")])], 0, []⟩ = .ok (out, stf) →
      ∃ rest,
        out = applyRenames FIELD_NAME_CHANGE
            (dsetField [("No", "1"), ("Customer ID", "C1"), ("Company Name", "Acme")]
               "Account Number" "ACC-9") :: rest) :=
  claim_C2_present_copies_account_no_prompt (fun _ => "UNUSED")
    ⟨[("C1", [("Customer ID", "C1"), ("Company Name", "Acme"),
              ("Account Number", "ACC-9")])], 0, []⟩
    [("No", "1"), ("Customer ID", "C1"), ("Company Name", "Acme")] []
    "C1" [("Customer ID", "C1"), ("Company Name", "Acme"), ("Account Number", "ACC-9")]
    "ACC-9" (by decide) (by decide) (by decide)

/-- C8: an empty string from the operator at the account-number prompt is
accepted as-is, with no validation and no second prompt (the trace gains
exactly one prompt event): the empty string becomes the Account Number of
the new mapping entry, of the persisted table, and of the output record. -/
theorem claim_C8_empty_input_accepted
    (oracle : Nat → String) (st : ConvSt) (row : Record) (cid cname : String)
    (hcid : dget row ACCOUNT_KEY = some cid)
    (hcn : dget row "Company Name" = some cname)
    (hm : dget st.mapping cid = none)
    (hempty : oracle st.count = "") :
    ∃ st1, convertStep FIELD_NAME_CHANGE oracle st row =
      .ok (applyRenames FIELD_NAME_CHANGE (dsetField row "Account Number" ""), st1) ∧
    dget st1.mapping cid =
      some [("Customer ID", cid), ("Company Name", cname), ("Account Number", "")] ∧
    st1.trace = st.trace ++ [.prompt cid cname, .writeMapping (dvalues st1.mapping)] ∧
    dget (applyRenames FIELD_NAME_CHANGE (dsetField row "Account Number" ""))
        "Account Number" = some "" := by
  have hstep := convertStep_absent_eq FIELD_NAME_CHANGE oracle st row cid cname hcid hm hcn
  rw [hempty] at hstep
  refine ⟨_, hstep, ?_, rfl, ?_⟩
  · exact dget_dsetField_same _ _ _
  · rw [dget_applyRenames _ _ _ (by decide) (by decide)]
    exact dget_dsetField_same _ _ _

/-- C8 witness: a concrete row resolved with an empty operator answer. -/
theorem claim_C8_empty_input_accepted_witness :
    ∃ st1, convertStep FIELD_NAME_CHANGE (fun _ => "") ⟨[], 0, []⟩
      [("No", "1"), ("Customer ID", "C1"), ("Company Name", "Acme")] =
      .ok (applyRenames FIELD_NAME_CHANGE
             (dsetField [("No", "1"), ("Customer ID", "C1"), ("Company Name", "Acme")]
                "Account Number" ""), st1) ∧
    dget st1.mapping "C1" =
      some [("Customer ID", "C1"), ("Company Name", "Acme"), ("Account Number", "")] ∧
    st1.trace = [.prompt "C1" "Acme", .writeMapping (dvalues st1.mapping)] ∧
    dget (applyRenames FIELD_NAME_CHANGE
            (dsetField [("No", "1"), ("Customer ID", "C1"), ("Company Name", "Acme")]
               "Account Number" ""))
        "Account Number" = some "" :=
  claim_C8_empty_input_accepted (fun _ => "") ⟨[], 0, []⟩
    [("No", "1"), ("Customer ID", "C1"), ("Company Name", "Acme")]
    "C1" "Acme" (by decide) (by decide) (by decide) (by decide)

/-! ## More dictionary lemmas -/

theorem dget_some_mem_dkeys {α : Type} (d : List (String × α)) (k : String) (v : α)
    (h : dget d k = some v) : k ∈ dkeys d := by
  induction d with
  | nil => simp [dget] at h
  | cons p r ih =>
    by_cases hp : p.1 = k
    · simp [dkeys, hp]
    · simp only [dget, if_neg hp] at h
      simp only [dkeys, List.map_cons, List.mem_cons]
      exact Or.inr (by simpa [dkeys] using ih h)

theorem mem_dkeys_exists_dget {α : Type} (d : List (String × α)) (k : String)
    (h : k ∈ dkeys d) : ∃ v, dget d k = some v := by
  induction d with
  | nil => simp [dkeys] at h
  | cons p r ih =>
    by_cases hp : p.1 = k
    · exact ⟨p.2, by simp [dget, hp]⟩
    · simp only [dkeys, List.map_cons, List.mem_cons] at h
      rcases h with h1 | h2
      · exact absurd h1.symm hp
      · obtain ⟨w, hw⟩ := ih (by simpa [dkeys] using h2)
        exact ⟨w, by simp [dget, hp, hw]⟩

theorem dget_eq_none_of_not_mem {α : Type} (d : List (String × α)) (k : String)
    (h : k ∉ dkeys d) : dget d k = none := by
  induction d with
  | nil => rfl
  | cons p r ih =>
    simp only [dkeys, List.map_cons, List.mem_cons, not_or] at h
    have hp : p.1 ≠ k := fun hh => h.1 hh.symm
    simp [dget, hp, ih (by simpa [dkeys] using h.2)]

theorem dkeys_dsetField_of_present {α : Type} (d : List (String × α)) (k : String)
    (v v0 : α) (h : dget d k = some v0) : dkeys (dsetField d k v) = dkeys d := by
  induction d with
  | nil => simp [dget] at h
  | cons p r ih =>
    by_cases hp : p.1 = k
    · simp [dsetField, dkeys, hp]
    · simp only [dget, if_neg hp] at h
      have hih := ih h
      simp only [dkeys] at hih
      simp [dsetField, dkeys, hp, hih]

theorem dkeys_nodup_dsetField {α : Type} (d : List (String × α)) (k : String) (v : α)
    (h : (dkeys d).Nodup) : (dkeys (dsetField d k v)).Nodup := by
  cases hg : dget d k with
  | none =>
    rw [dkeys_dsetField_of_absent d k v hg]
    have hk : k ∉ dkeys d := fun hmem => by
      obtain ⟨w, hw⟩ := mem_dkeys_exists_dget d k hmem
      rw [hg] at hw
      exact Option.noConfusion hw
    simp [List.nodup_append, h, hk]
  | some v0 =>
    rw [dkeys_dsetField_of_present d k v v0 hg]
    exact h

theorem mem_dvalues_dsetField {α : Type} (d : List (String × α)) (k : String) (v w : α)
    (h : w ∈ dvalues (dsetField d k v)) : w ∈ dvalues d ∨ w = v := by
  induction d with
  | nil => simp [dsetField, dvalues] at h; exact Or.inr h
  | cons p r ih =>
    by_cases hp : p.1 = k
    · simp only [dsetField, if_pos hp, dvalues, List.map_cons, List.mem_cons] at h
      rcases h with h | h
      · exact Or.inr h
      · exact Or.inl (by simp [dvalues, h])
    · simp only [dsetField, if_neg hp, dvalues, List.map_cons, List.mem_cons] at h
      rcases h with h | h
      · exact Or.inl (by simp [dvalues, h])
      · rcases ih h with h1 | h1
        · exact Or.inl (by simp [dvalues]; exact Or.inr (by simpa [dvalues] using h1))
        · exact Or.inr h1

/-! ## Claim C6: filename policy of the writer -/

/-- C6: with the default destination sentinel, the output filename is the
stem `billing_` followed by the local time as YYYYMMDD_HHMM and `.csv`; in
particular at 2024-03-05 14:07 it is `billing_20240305_1407.csv`; any other
caller-supplied name is used verbatim. -/
theorem claim_C6_filename_policy :
    (∀ now : LocalTime, billing_filename DEFAULT_DEST_CSV_FILENAME now =
      "billing_" ++ strftime_YmdHM now ++ ".csv") ∧
    billing_filename DEFAULT_DEST_CSV_FILENAME ⟨2024, 3, 5, 14, 7⟩ =
      "billing_20240305_1407.csv" ∧
    (∀ (u : String) (now : LocalTime),
      u ≠ DEFAULT_DEST_CSV_FILENAME → billing_filename u now = u) := by
  refine ⟨fun now => ?_, by decide, fun u now h => ?_⟩
  · simp [billing_filename, DEST_FILENAME_STEM]
  · simp [billing_filename, h]

/-- C6 witness: the two filename branches at concrete inputs. -/
theorem claim_C6_filename_policy_witness :
    billing_filename DEFAULT_DEST_CSV_FILENAME ⟨2024, 3, 5, 14, 7⟩ =
      "billing_20240305_1407.csv" ∧
    ("out.csv" ≠ DEFAULT_DEST_CSV_FILENAME) ∧
    billing_filename "out.csv" ⟨2024, 3, 5, 14, 7⟩ = "out.csv" :=
  ⟨claim_C6_filename_policy.2.1, by decide,
   claim_C6_filename_policy.2.2 "out.csv" ⟨2024, 3, 5, 14, 7⟩ (by decide)⟩

/-! ## Claim C9: the shipped rename table is inert on source-header records -/

/-- The shipped rename table does nothing to a record lacking the
placeholder source field. -/
theorem applyRenames_shipped_noop (r : Record)
    (h : dget r "SOURCE_FIELD_NAME" = none) :
    applyRenames FIELD_NAME_CHANGE r = r := by
  simp [applyRenames, FIELD_NAME_CHANGE, h]

/-- C9: the shipped rename table maps only the placeholder name
`SOURCE_FIELD_NAME`, which is not a documented source header, so the rename
step leaves every record whose field names all come from the documented
source header set completely unchanged. -/
theorem claim_C9_shipped_rename_is_noop (r : Record)
    (h : ∀ k ∈ dkeys r, k ∈ SOURCE_HEADERS) :
    applyRenames FIELD_NAME_CHANGE r = r := by
  have hno : dget r "SOURCE_FIELD_NAME" = none := by
    cases hg : dget r "SOURCE_FIELD_NAME" with
    | none => rfl
    | some v =>
      have hmem := h _ (dget_some_mem_dkeys r _ v hg)
      exact absurd hmem (by decide)
  exact applyRenames_shipped_noop r hno

/-- C9 witness: a full documented source row is untouched by the rename. -/
theorem claim_C9_shipped_rename_is_noop_witness :
    applyRenames FIELD_NAME_CHANGE
      [("No", "1"), ("Customer ID", "C1"), ("Company Name", "Acme"),
       ("Flat Charge", "10"), ("Current Volume", "5"), ("Current Amount", "50"),
       ("YTD Volume", "20"), ("YTD Amount", "200")] =
      [("No", "1"), ("Customer ID", "C1"), ("Company Name", "Acme"),
       ("Flat Charge", "10"), ("Current Volume", "5"), ("Current Amount", "50"),
       ("YTD Volume", "20"), ("YTD Amount", "200")] :=
  claim_C9_shipped_rename_is_noop _ (by decide)

/-! ## Claim C5: duplicate identifiers when loading in keyed mode -/

/-- Invariant of the keyed-accumulation loop: starting from any
accumulator, the fold succeeds when every row has the key field, key
nodup-ness is preserved, and each lookup returns the last matching row,
falling back to the accumulator. -/
theorem loadAsDictGo_spec (rows : List Record) (m0 : MappingTable)
    (h : ∀ r ∈ rows, dget r ACCOUNT_KEY ≠ none) :
    ∃ m, (rows.foldlM (fun m r =>
        match dget r ACCOUNT_KEY with
        | none => .error "KeyError: Customer ID"
        | some k => .ok (dsetField m k r)) m0 : Except String MappingTable) = .ok m ∧
      ((dkeys m0).Nodup → (dkeys m).Nodup) ∧
      ∀ k, dget m k =
        ((rows.filter (fun r => dget r ACCOUNT_KEY == some k)).getLast?).elim
          (dget m0 k) some := by
  induction rows generalizing m0 with
  | nil => exact ⟨m0, rfl, id, fun k => by simp⟩
  | cons r rows ih =>
    have hr := h r (by simp)
    cases hg : dget r ACCOUNT_KEY with
    | none => exact absurd hg hr
    | some kr =>
      obtain ⟨m, hm, hnd, hlast⟩ := ih (dsetField m0 kr r) (fun q hq => h q (by simp [hq]))
      refine ⟨m, ?_, fun hnd0 => hnd (dkeys_nodup_dsetField m0 kr r hnd0), fun k => ?_⟩
      · simp only [List.foldlM_cons, hg]
        exact hm
      · rw [hlast k]
        by_cases hk : kr = k
        · subst hk
          have hfil : (r :: rows).filter (fun q => dget q ACCOUNT_KEY == some kr) =
              r :: rows.filter (fun q => dget q ACCOUNT_KEY == some kr) := by
            simp [List.filter_cons, hg]
          rw [hfil]
          cases hl : (rows.filter (fun q => dget q ACCOUNT_KEY == some kr)).getLast? with
          | none =>
            have : rows.filter (fun q => dget q ACCOUNT_KEY == some kr) = [] := by
              cases hfe : rows.filter (fun q => dget q ACCOUNT_KEY == some kr) with
              | nil => rfl
              | cons a l => rw [hfe] at hl; simp [List.getLast?] at hl
            simp [this, dget_dsetField_same]
          | some w =>
            obtain ⟨a, l, hal⟩ : ∃ a l,
                rows.filter (fun q => dget q ACCOUNT_KEY == some kr) = a :: l := by
              cases hfe : rows.filter (fun q => dget q ACCOUNT_KEY == some kr) with
              | nil => rw [hfe] at hl; simp at hl
              | cons a l => exact ⟨a, l, rfl⟩
            rw [hal] at hl
            rw [hal, List.getLast?_cons_cons, hl]
            simp
        · have hfil : (r :: rows).filter (fun q => dget q ACCOUNT_KEY == some k) =
              rows.filter (fun q => dget q ACCOUNT_KEY == some k) := by
            simp [List.filter_cons, hg, hk]
          rw [hfil, dget_dsetField_other m0 kr k r (fun hh => hk hh.symm)]

/-- C5: loading a CSV file in keyed (dictionary) mode produces a mapping
with at most one entry per key; when several parsed rows share the same
account identifier, the surviving entry is the last such row in file
order, silently overwriting the earlier ones, and no error occurs as long
as every row carries the key field. -/
theorem claim_C5_duplicate_keys_last_write_wins (content : String)
    (h : ∀ r ∈ load_csv_list content, dget r ACCOUNT_KEY ≠ none) :
    ∃ m, load_csv_dict content = .ok m ∧ (dkeys m).Nodup ∧
      ∀ k, dget m k =
        ((load_csv_list content).filter
          (fun r => dget r ACCOUNT_KEY == some k)).getLast? := by
  obtain ⟨m, hm, hnd, hlast⟩ := loadAsDictGo_spec (load_csv_list content) [] h
  refine ⟨m, hm, hnd (by simp [dkeys]), fun k => ?_⟩
  rw [hlast k]
  cases hl : ((load_csv_list content).filter
      (fun r => dget r ACCOUNT_KEY == some k)).getLast? with
  | none => simp [dget]
  | some w => simp

/-- C5 witness: a mapping file whose two data rows share the identifier
C1; the loaded mapping keeps only the last row's values. -/
theorem claim_C5_duplicate_keys_last_write_wins_witness :
    ∃ m, load_csv_dict
        ("\"Customer ID\",\"Company Name\",\"Account Number\"\r\n" ++
         "\"C1\",\"Alpha\",\"1\"\r\n" ++
         "\"C1\",\"Beta\",\"2\"\r\n") = .ok m ∧
      (dkeys m).Nodup ∧
      ∀ k, dget m k =
        ((load_csv_list
          ("\"Customer ID\",\"Company Name\",\"Account Number\"\r\n" ++
           "\"C1\",\"Alpha\",\"1\"\r\n" ++
           "\"C1\",\"Beta\",\"2\"\r\n")).filter
          (fun r => dget r ACCOUNT_KEY == some k)).getLast? :=
  claim_C5_duplicate_keys_last_write_wins _ (by decide)

/-! ## Claim C7: the frame of enrichment -/

/-- Fields other than Account Number and the rename table's source and
destination names pass through one loop iteration unchanged. -/
theorem convertStep_frame (rename : List (String × String)) (oracle : Nat → String)
    (st : ConvSt) (r r1 : Record) (st1 : ConvSt)
    (h : convertStep rename oracle st r = .ok (r1, st1)) (k : String)
    (hk1 : k ≠ "Account Number")
    (hk2 : ∀ p ∈ rename, k ≠ p.1) (hk3 : ∀ p ∈ rename, k ≠ p.2) :
    dget r1 k = dget r k := by
  cases hcid : dget r ACCOUNT_KEY with
  | none => unfold convertStep at h; simp [hcid] at h
  | some cid =>
    cases hm : dget st.mapping cid with
    | none =>
      cases hcn : dget r "Company Name" with
      | none => unfold convertStep at h; simp [hcid, hm, hcn] at h
      | some cname =>
        rw [convertStep_absent_eq rename oracle st r cid cname hcid hm hcn] at h
        have h2 := Except.ok.inj h
        injection h2 with hr hst
        rw [← hr, dget_applyRenames rename _ k hk2 hk3,
          dget_dsetField_other r _ k _ hk1]
    | some entry =>
      cases ha : dget entry "Account Number" with
      | none => unfold convertStep at h; simp [hcid, hm, ha] at h
      | some acct =>
        rw [convertStep_present_eq rename oracle st r cid entry acct hcid hm ha] at h
        have h2 := Except.ok.inj h
        injection h2 with hr hst
        rw [← hr, dget_applyRenames rename _ k hk2 hk3,
          dget_dsetField_other r _ k _ hk1]

/-- The frame property for the whole loop, with positional (order-
preserving) correspondence between input and output rows. -/
theorem convertGo_frame (rename : List (String × String)) (oracle : Nat → String)
    (rs : List Record) (st : ConvSt) (out : List Record) (stf : ConvSt)
    (h : convertGo rename oracle rs st = .ok (out, stf)) :
    List.Forall₂ (fun r r1 => ∀ k, k ≠ "Account Number" →
      (∀ p ∈ rename, k ≠ p.1) → (∀ p ∈ rename, k ≠ p.2) →
      dget r1 k = dget r k) rs out := by
  induction rs generalizing st out with
  | nil =>
    simp only [convertGo, Except.ok.injEq, Prod.mk.injEq] at h
    rw [← h.1]
    exact List.Forall₂.nil
  | cons r rs ih =>
    cases hs : convertStep rename oracle st r with
    | error e => simp [convertGo, hs] at h
    | ok p =>
      obtain ⟨r1, st1⟩ := p
      simp only [convertGo, hs] at h
      cases hg : convertGo rename oracle rs st1 with
      | error e => simp [hg] at h
      | ok q =>
        obtain ⟨out1, st2⟩ := q
        simp only [hg, Except.ok.injEq, Prod.mk.injEq] at h
        obtain ⟨hout, hst⟩ := h
        subst hst
        rw [← hout]
        exact List.Forall₂.cons
          (fun k hk1 hk2 hk3 => convertStep_frame rename oracle st r r1 st1 hs k hk1 hk2 hk3)
          (ih st1 out1 hg)

/-- C7 (amended): enrichment changes only the Account Number field and the
fields named as sources or destinations in the rename table; every other
field of every record keeps its original value, and the records are
emitted in the same order as read (positional correspondence). -/
theorem claim_C7_frame_and_order_amended
    (rename : List (String × String)) (oracle : Nat → String)
    (rows out : List Record) (m : MappingTable) (stf : ConvSt)
    (h : convert_formats rename oracle rows m = .ok (out, stf)) :
    List.Forall₂ (fun r r1 => ∀ k, k ≠ "Account Number" →
      (∀ p ∈ rename, k ≠ p.1) → (∀ p ∈ rename, k ≠ p.2) →
      dget r1 k = dget r k) rows out :=
  convertGo_frame rename oracle rows ⟨m, 0, []⟩ out stf h

/-- C7 witness: a concrete two-row run in which the pass-through fields
keep their values positionally. -/
theorem claim_C7_frame_and_order_amended_witness :
    List.Forall₂ (fun r r1 => ∀ k, k ≠ "Account Number" →
      (∀ p ∈ FIELD_NAME_CHANGE, k ≠ p.1) → (∀ p ∈ FIELD_NAME_CHANGE, k ≠ p.2) →
      dget r1 k = dget r k)
      [[("No", "1"), ("Customer ID", "C1"), ("Company Name", "Acme")],
       [("No", "2"), ("Customer ID", "C2"), ("Company Name", "Bray")]]
      [[("No", "1"), ("Customer ID", "C1"), ("Company Name", "Acme"),
        ("Account Number", "ACC-1")],
       [("No", "2"), ("Customer ID", "C2"), ("Company Name", "Bray"),
        ("Account Number", "ACC-1")]] :=
  claim_C7_frame_and_order_amended FIELD_NAME_CHANGE (fun _ => "ACC-1")
    [[("No", "1"), ("Customer ID", "C1"), ("Company Name", "Acme")],
     [("No", "2"), ("Customer ID", "C2"), ("Company Name", "Bray")]]
    [[("No", "1"), ("Customer ID", "C1"), ("Company Name", "Acme"),
      ("Account Number", "ACC-1")],
     [("No", "2"), ("Customer ID", "C2"), ("Company Name", "Bray"),
      ("Account Number", "ACC-1")]]
    [] ⟨[("C1", [("Customer ID", "C1"), ("Company Name", "Acme"),
                 ("Account Number", "ACC-1")]),
         ("C2", [("Customer ID", "C2"), ("Company Name", "Bray"),
                 ("Account Number", "ACC-1")])], 2,
        [.prompt "C1" "Acme",
         .writeMapping [[("Customer ID", "C1"), ("Company Name", "Acme"),
                         ("Account Number", "ACC-1")]],
         .prompt "C2" "Bray",
         .writeMapping [[("Customer ID", "C1"), ("Company Name", "Acme"),
                         ("Account Number", "ACC-1")],
                        [("Customer ID", "C2"), ("Company Name", "Bray"),
                         ("Account Number", "ACC-1")]]]⟩ (by decide)

/-- C7 counterexample: with the shipped rename table, a record carrying
both the placeholder source field and the placeholder destination field
has the destination field's value overwritten, although that field is not
the Account Number field and is not named as a source in the rename table;
so enrichment does not change only the Account Number field and the
rename-table source fields. -/
theorem claim_C7_counterexample :
    convert_formats FIELD_NAME_CHANGE (fun _ => "")
        [[("Customer ID", "C1"), ("Company Name", "A"),
          ("SOURCE_FIELD_NAME", "x"), ("DESTINATION_FIELD_NAME", "y")]]
        [("C1", [("Customer ID", "C1"), ("Company Name", "A"),
                 ("Account Number", "9")])] =
      .ok ([[("Customer ID", "C1"), ("Company Name", "A"),
             ("DESTINATION_FIELD_NAME", "x"), ("Account Number", "9")]],
           ⟨[("C1", [("Customer ID", "C1"), ("Company Name", "A"),
                     ("Account Number", "9")])], 0, []⟩) ∧
    dget [("Customer ID", "C1"), ("Company Name", "A"),
          ("SOURCE_FIELD_NAME", "x"), ("DESTINATION_FIELD_NAME", "y")]
        "DESTINATION_FIELD_NAME" = some "y" ∧
    dget [("Customer ID", "C1"), ("Company Name", "A"),
          ("DESTINATION_FIELD_NAME", "x"), ("Account Number", "9")]
        "DESTINATION_FIELD_NAME" = some "x" ∧
    ("DESTINATION_FIELD_NAME" : String) ≠ "Account Number" ∧
    FIELD_NAME_CHANGE.map Prod.fst = ["SOURCE_FIELD_NAME"] := by
  decide

/-! ## Claim C10: output field names match the billing headers -/

/-- One loop iteration over a well-formed source row yields a processed row
whose field names are exactly the nine billing headers (as a set). -/
theorem convertStep_keys (oracle : Nat → String) (st : ConvSt) (row r1 : Record)
    (st1 : ConvSt) (hkeys : (dkeys row).Perm SOURCE_HEADERS)
    (h : convertStep FIELD_NAME_CHANGE oracle st row = .ok (r1, st1)) :
    (dkeys r1).Perm BILLING_HEADERS := by
  have hAN : dget row "Account Number" = none :=
    dget_eq_none_of_not_mem _ _ (fun hmem => absurd (hkeys.mem_iff.mp hmem) (by decide))
  have key_calc : ∀ acct : String,
      (dkeys (applyRenames FIELD_NAME_CHANGE
        (dsetField row "Account Number" acct))).Perm BILLING_HEADERS := by
    intro acct
    have h1 : dkeys (dsetField row "Account Number" acct) =
        dkeys row ++ ["Account Number"] :=
      dkeys_dsetField_of_absent _ _ _ hAN
    have hS : dget (dsetField row "Account Number" acct) "SOURCE_FIELD_NAME" = none := by
      apply dget_eq_none_of_not_mem
      rw [h1]
      intro hmem
      rcases List.mem_append.mp hmem with h2 | h2
      · exact absurd (hkeys.mem_iff.mp h2) (by decide)
      · exact absurd h2 (by decide)
    rw [applyRenames_shipped_noop _ hS, h1]
    exact List.Perm.trans (hkeys.append_right _) (by decide)
  cases hcid : dget row ACCOUNT_KEY with
  | none => unfold convertStep at h; simp [hcid] at h
  | some cid =>
    cases hm : dget st.mapping cid with
    | none =>
      cases hcn : dget row "Company Name" with
      | none => unfold convertStep at h; simp [hcid, hm, hcn] at h
      | some cname =>
        rw [convertStep_absent_eq FIELD_NAME_CHANGE oracle st row cid cname hcid hm hcn] at h
        have h2 := Except.ok.inj h
        injection h2 with hr hst
        rw [← hr]
        exact key_calc _
    | some entry =>
      cases ha : dget entry "Account Number" with
      | none => unfold convertStep at h; simp [hcid, hm, ha] at h
      | some acct =>
        rw [convertStep_present_eq FIELD_NAME_CHANGE oracle st row cid entry acct
          hcid hm ha] at h
        have h2 := Except.ok.inj h
        injection h2 with hr hst
        rw [← hr]
        exact key_calc _

/-- Field-name closure for the whole loop. -/
theorem convertGo_keys (oracle : Nat → String) (rs : List Record) (st : ConvSt)
    (out : List Record) (stf : ConvSt)
    (hrows : ∀ r ∈ rs, (dkeys r).Perm SOURCE_HEADERS)
    (h : convertGo FIELD_NAME_CHANGE oracle rs st = .ok (out, stf)) :
    ∀ r1 ∈ out, (dkeys r1).Perm BILLING_HEADERS := by
  induction rs generalizing st out with
  | nil =>
    simp only [convertGo, Except.ok.injEq, Prod.mk.injEq] at h
    rw [← h.1]
    intro r1 hr1
    exact absurd hr1 (List.not_mem_nil r1)
  | cons r rs ih =>
    cases hs : convertStep FIELD_NAME_CHANGE oracle st r with
    | error e => simp [convertGo, hs] at h
    | ok p =>
      obtain ⟨r1, st1⟩ := p
      simp only [convertGo, hs] at h
      cases hg : convertGo FIELD_NAME_CHANGE oracle rs st1 with
      | error e => simp [hg] at h
      | ok q =>
        obtain ⟨out1, st2⟩ := q
        simp only [hg, Except.ok.injEq, Prod.mk.injEq] at h
        obtain ⟨hout, hst⟩ := h
        subst hst
        rw [← hout]
        intro r2 hr2
        rcases List.mem_cons.mp hr2 with h3 | h3
        · rw [h3]
          exact convertStep_keys oracle st r r1 st1 (hrows r (by simp)) hs
        · exact ih st1 out1 (fun q hq => hrows q (by simp [hq])) hg r2 h3

/-- Serializing a row succeeds when all its field names are in the header. -/
theorem rowToFields_ok (hdr : List String) (r : Record)
    (h : ∀ k ∈ dkeys r, k ∈ hdr) :
    rowToFields hdr r = .ok (hdr.map (fun hd => (dget r hd).getD "")) := by
  have hall : ((dkeys r).all fun k => hdr.contains k) = true := by
    rw [List.all_eq_true]
    intro k hk
    simpa [List.contains] using List.elem_iff.mpr (h k hk)
  unfold rowToFields
  rw [if_pos hall]

/-- Serializing a dataset succeeds when every row's field names are in the
header. -/
theorem writeRowsE_ok (hdr : List String) (rs : List Record)
    (h : ∀ r ∈ rs, ∀ k ∈ dkeys r, k ∈ hdr) :
    ∃ out, writeRowsE hdr rs = .ok out := by
  induction rs with
  | nil => exact ⟨[], rfl⟩
  | cons r rs ih =>
    obtain ⟨out, hout⟩ := ih (fun q hq => h q (by simp [hq]))
    exact ⟨(hdr.map (fun hd => (dget r hd).getD "")) :: out,
      by simp only [writeRowsE, rowToFields_ok hdr r (h r (by simp)), hout]⟩

/-- C10: over source rows whose field-name set is exactly the documented
source header set, every record produced by `convert_formats` has
field-name set exactly the nine billing headers, so the destination write
never reaches the row serializer's unknown-field error branch, whatever
iteration order the billing header set has. -/
theorem claim_C10_output_fields_serialize_cleanly
    (oracle : Nat → String) (rows out : List Record) (m : MappingTable)
    (stf : ConvSt)
    (hrows : ∀ r ∈ rows, (dkeys r).Perm SOURCE_HEADERS)
    (h : convert_formats FIELD_NAME_CHANGE oracle rows m = .ok (out, stf))
    (hdr : List String) (hperm : hdr.Perm BILLING_HEADERS) :
    (∀ r1 ∈ out, (dkeys r1).Perm BILLING_HEADERS) ∧
    ∃ s, write_csv hdr out = .ok s := by
  have hkeys := convertGo_keys oracle rows ⟨m, 0, []⟩ out stf hrows h
  refine ⟨hkeys, ?_⟩
  obtain ⟨fss, hfss⟩ := writeRowsE_ok hdr out (fun r1 hr1 k hk =>
    hperm.mem_iff.mpr ((hkeys r1 hr1).mem_iff.mp hk))
  refine ⟨String.mk (renderTable (hdr :: fss)), ?_⟩
  unfold write_csv
  rw [hfss]
  rfl

/-- C10 witness: one well-formed source row through a full conversion and a
successful destination write. -/
theorem claim_C10_output_fields_serialize_cleanly_witness :
    (∀ r1 ∈ [[("No", "1"), ("Customer ID", "C1"), ("Company Name", "Acme"),
              ("Flat Charge", "10"), ("Current Volume", "5"),
              ("Current Amount", "50"), ("YTD Volume", "20"),
              ("YTD Amount", "200"), ("Account Number", "ACC-1")]],
      (dkeys r1).Perm BILLING_HEADERS) ∧
    ∃ s, write_csv BILLING_HEADERS
        [[("No", "1"), ("Customer ID", "C1"), ("Company Name", "Acme"),
          ("Flat Charge", "10"), ("Current Volume", "5"),
          ("Current Amount", "50"), ("YTD Volume", "20"),
          ("YTD Amount", "200"), ("Account Number", "ACC-1")]] = .ok s :=
  claim_C10_output_fields_serialize_cleanly (fun _ => "ACC-1")
    [[("No", "1"), ("Customer ID", "C1"), ("Company Name", "Acme"),
      ("Flat Charge", "10"), ("Current Volume", "5"), ("Current Amount", "50"),
      ("YTD Volume", "20"), ("YTD Amount", "200")]]
    [[("No", "1"), ("Customer ID", "C1"), ("Company Name", "Acme"),
      ("Flat Charge", "10"), ("Current Volume", "5"), ("Current Amount", "50"),
      ("YTD Volume", "20"), ("YTD Amount", "200"), ("Account Number", "ACC-1")]]
    [] ⟨[("C1", [("Customer ID", "C1"), ("Company Name", "Acme"),
                 ("Account Number", "ACC-1")])], 1,
        [.prompt "C1" "Acme",
         .writeMapping [[("Customer ID", "C1"), ("Company Name", "Acme"),
                         ("Account Number", "ACC-1")]]]⟩
    (by decide) (by decide) BILLING_HEADERS (by decide)

/-! ## Claim C4: repeat runs with a fully-populated mapping table -/

/-- When every row's identifier is already mapped (with an Account Number
field), the loop never consults the oracle and leaves the state untouched:
any two oracles produce the same output rows. -/
theorem convertGo_full (oracle : Nat → String) (rs : List Record) (st : ConvSt)
    (hfull : ∀ r ∈ rs, ∃ cid entry acct, dget r ACCOUNT_KEY = some cid ∧
      dget st.mapping cid = some entry ∧ dget entry "Account Number" = some acct) :
    ∃ out, convertGo FIELD_NAME_CHANGE oracle rs st = .ok (out, st) ∧
      ∀ oracle2 : Nat → String,
        convertGo FIELD_NAME_CHANGE oracle2 rs st = .ok (out, st) := by
  induction rs with
  | nil => exact ⟨[], rfl, fun _ => rfl⟩
  | cons r rs ih =>
    obtain ⟨cid, entry, acct, h1, h2, h3⟩ := hfull r (by simp)
    obtain ⟨out, hout, hall⟩ := ih (fun q hq => hfull q (by simp [hq]))
    refine ⟨applyRenames FIELD_NAME_CHANGE (dsetField r "Account Number" acct) :: out,
      ?_, fun oracle2 => ?_⟩
    · simp only [convertGo,
        convertStep_present_eq FIELD_NAME_CHANGE oracle st r cid entry acct h1 h2 h3,
        hout]
    · simp only [convertGo,
        convertStep_present_eq FIELD_NAME_CHANGE oracle2 st r cid entry acct h1 h2 h3,
        hall oracle2]

/-- C4 (amended): two runs over the same unchanged source rows and a
mapping table containing every source identifier issue zero prompts, leave
the mapping table (and hence the mapping file) untouched, and — provided
both interpreter processes iterate the billing header set in the same
order — write byte-identical destination content; the timestamp-derived
filename is not constrained. -/
theorem claim_C4_idempotent_same_header_order_amended
    (oracle1 oracle2 : Nat → String) (hdr : List String)
    (rows : List Record) (m : MappingTable) (u1 u2 : String) (t1 t2 : LocalTime)
    (hfull : ∀ r ∈ rows, ∃ cid entry acct, dget r ACCOUNT_KEY = some cid ∧
      dget m cid = some entry ∧ dget entry "Account Number" = some acct) :
    ∃ out,
      convert_formats FIELD_NAME_CHANGE oracle1 rows m = .ok (out, ⟨m, 0, []⟩) ∧
      convert_formats FIELD_NAME_CHANGE oracle2 rows m = .ok (out, ⟨m, 0, []⟩) ∧
      (∀ fn1 c1 s1 fn2 c2 s2,
        runConverter oracle1 hdr rows m u1 t1 = .ok (fn1, c1, s1) →
        runConverter oracle2 hdr rows m u2 t2 = .ok (fn2, c2, s2) →
        c1 = c2 ∧ s1 = ⟨m, 0, []⟩ ∧ s2 = ⟨m, 0, []⟩) := by
  obtain ⟨out, hout, hall⟩ := convertGo_full oracle1 rows ⟨m, 0, []⟩ hfull
  refine ⟨out, hout, hall oracle2, ?_⟩
  intro fn1 c1 s1 fn2 c2 s2 hr1 hr2
  unfold runConverter at hr1 hr2
  simp only [convert_formats, hout] at hr1
  simp only [convert_formats, hall oracle2] at hr2
  cases hw : write_billing_csv out u1 t1 hdr with
  | error e => simp [hw] at hr1
  | ok p1 =>
    cases hw2 : write_billing_csv out u2 t2 hdr with
    | error e => simp [hw2] at hr2
    | ok p2 =>
      obtain ⟨f1, s1c⟩ := p1
      obtain ⟨f2, s2c⟩ := p2
      simp only [hw, Except.ok.injEq, Prod.mk.injEq] at hr1
      simp only [hw2, Except.ok.injEq, Prod.mk.injEq] at hr2
      obtain ⟨-, hc1, hs1⟩ := hr1
      obtain ⟨-, hc2, hs2⟩ := hr2
      have hcs : s1c = s2c := by
        unfold write_billing_csv at hw hw2
        cases hwc : write_csv hdr out with
        | error e => rw [hwc] at hw; simp [Except.map] at hw
        | ok c =>
          rw [hwc] at hw hw2
          simp only [Except.map, Except.ok.injEq, Prod.mk.injEq] at hw hw2
          rw [← hw.2, ← hw2.2]
      exact ⟨by rw [← hc1, ← hc2, hcs], hs1.symm, hs2.symm⟩

/-- C4 witness: a concrete fully-mapped run under two different oracles. -/
theorem claim_C4_idempotent_same_header_order_amended_witness :
    ∃ out,
      convert_formats FIELD_NAME_CHANGE (fun _ => "A") 
          [[("No", "1"), ("Customer ID", "C1"), ("Company Name", "Acme")]]
          [("C1", [("Customer ID", "C1"), ("Company Name", "Acme"),
                   ("Account Number", "ACC-1")])] = .ok (out,
        ⟨[("C1", [("Customer ID", "C1"), ("Company Name", "Acme"),
                  ("Account Number", "ACC-1")])], 0, []⟩) ∧
      convert_formats FIELD_NAME_CHANGE (fun _ => "B")
          [[("No", "1"), ("Customer ID", "C1"), ("Company Name", "Acme")]]
          [("C1", [("Customer ID", "C1"), ("Company Name", "Acme"),
                   ("Account Number", "ACC-1")])] = .ok (out,
        ⟨[("C1", [("Customer ID", "C1"), ("Company Name", "Acme"),
                  ("Account Number", "ACC-1")])], 0, []⟩) ∧
      (∀ fn1 c1 s1 fn2 c2 s2,
        runConverter (fun _ => "A") BILLING_HEADERS
            [[("No", "1"), ("Customer ID", "C1"), ("Company Name", "Acme")]]
            [("C1", [("Customer ID", "C1"), ("Company Name", "Acme"),
                     ("Account Number", "ACC-1")])]
            DEFAULT_DEST_CSV_FILENAME ⟨2024, 3, 5, 14, 7⟩ = .ok (fn1, c1, s1) →
        runConverter (fun _ => "B") BILLING_HEADERS
            [[("No", "1"), ("Customer ID", "C1"), ("Company Name", "Acme")]]
            [("C1", [("Customer ID", "C1"), ("Company Name", "Acme"),
                     ("Account Number", "ACC-1")])]
            DEFAULT_DEST_CSV_FILENAME ⟨2024, 3, 6, 9, 30⟩ = .ok (fn2, c2, s2) →
        c1 = c2 ∧
        s1 = ⟨[("C1", [("Customer ID", "C1"), ("Company Name", "Acme"),
                       ("Account Number", "ACC-1")])], 0, []⟩ ∧
        s2 = ⟨[("C1", [("Customer ID", "C1"), ("Company Name", "Acme"),
                       ("Account Number", "ACC-1")])], 0, []⟩) :=
  claim_C4_idempotent_same_header_order_amended (fun _ => "A") (fun _ => "B")
    BILLING_HEADERS
    [[("No", "1"), ("Customer ID", "C1"), ("Company Name", "Acme")]]
    [("C1", [("Customer ID", "C1"), ("Company Name", "Acme"),
             ("Account Number", "ACC-1")])]
    DEFAULT_DEST_CSV_FILENAME DEFAULT_DEST_CSV_FILENAME
    ⟨2024, 3, 5, 14, 7⟩ ⟨2024, 3, 6, 9, 30⟩
    (fun r hr => by
      rcases List.mem_singleton.mp hr with h
      exact ⟨"C1", [("Customer ID", "C1"), ("Company Name", "Acme"),
        ("Account Number", "ACC-1")], "ACC-1", by rw [h]; decide⟩)

/-- C4 counterexample: the destination bytes are produced in the iteration
order of the `BILLING_HEADERS` set literal, and a Python process fixes
that order from randomized string hashes, so two invocations of the
program can disagree on it. Under two such orders (both permutations of
the same nine headers), the same unchanged source row and fully-populated
mapping table yield prompt-free runs whose destination contents are not
byte-identical, refuting the claim as stated. -/
theorem claim_C4_counterexample :
    ((runConverter (fun _ => "") BILLING_HEADERS
        [[("No", "1"), ("Customer ID", "C1"), ("Company Name", "Acme"),
          ("Flat Charge", "10"), ("Current Volume", "5"), ("Current Amount", "50"),
          ("YTD Volume", "20"), ("YTD Amount", "200")]]
        [("C1", [("Customer ID", "C1"), ("Company Name", "Acme"),
                 ("Account Number", "ACC-1")])]
        DEFAULT_DEST_CSV_FILENAME ⟨2024, 3, 5, 14, 7⟩).toOption.map
          (fun x => x.2.2.count) = some 0) ∧
    ((runConverter (fun _ => "")
        ["Customer ID", "No", "Company Name", "Account Number", "Flat Charge",
         "Current Volume", "Current Amount", "YTD Volume", "YTD Amount"]
        [[("No", "1"), ("Customer ID", "C1"), ("Company Name", "Acme"),
          ("Flat Charge", "10"), ("Current Volume", "5"), ("Current Amount", "50"),
          ("YTD Volume", "20"), ("YTD Amount", "200")]]
        [("C1", [("Customer ID", "C1"), ("Company Name", "Acme"),
                 ("Account Number", "ACC-1")])]
        DEFAULT_DEST_CSV_FILENAME ⟨2024, 3, 5, 14, 7⟩).toOption.map
          (fun x => x.2.2.count) = some 0) ∧
    (["Customer ID", "No", "Company Name", "Account Number", "Flat Charge",
      "Current Volume", "Current Amount", "YTD Volume",
      "YTD Amount"].Perm BILLING_HEADERS) ∧
    ((runConverter (fun _ => "") BILLING_HEADERS
        [[("No", "1"), ("Customer ID", "C1"), ("Company Name", "Acme"),
          ("Flat Charge", "10"), ("Current Volume", "5"), ("Current Amount", "50"),
          ("YTD Volume", "20"), ("YTD Amount", "200")]]
        [("C1", [("Customer ID", "C1"), ("Company Name", "Acme"),
                 ("Account Number", "ACC-1")])]
        DEFAULT_DEST_CSV_FILENAME ⟨2024, 3, 5, 14, 7⟩).toOption.map
          (fun x => x.2.1) ≠
     (runConverter (fun _ => "")
        ["Customer ID", "No", "Company Name", "Account Number", "Flat Charge",
         "Current Volume", "Current Amount", "YTD Volume", "YTD Amount"]
        [[("No", "1"), ("Customer ID", "C1"), ("Company Name", "Acme"),
          ("Flat Charge", "10"), ("Current Volume", "5"), ("Current Amount", "50"),
          ("YTD Volume", "20"), ("YTD Amount", "200")]]
        [("C1", [("Customer ID", "C1"), ("Company Name", "Acme"),
                 ("Account Number", "ACC-1")])]
        DEFAULT_DEST_CSV_FILENAME ⟨2024, 3, 5, 14, 7⟩).toOption.map
          (fun x => x.2.1)) := by
  decide

/-! ## Claim C3: round-trip of the mapping table through the CSV file -/

theorem univNewlines_cons_ne (c : Char) (cs : List Char) (h : c ≠ '\r') :
    univNewlines (c :: cs) = c :: univNewlines cs := by
  cases cs with
  | nil => simp [univNewlines, h]
  | cons d t => simp [univNewlines, h]

theorem univNewlines_append_noCR (l rest : List Char) (h : ∀ c ∈ l, c ≠ '\r') :
    univNewlines (l ++ rest) = l ++ univNewlines rest := by
  induction l with
  | nil => simp
  | cons c t ih =>
    rw [List.cons_append, univNewlines_cons_ne c _ (h c (by simp)),
      ih (fun d hd => h d (by simp [hd]))]
    rfl

theorem univNewlines_crlf (cs : List Char) :
    univNewlines ('\r' :: '\n' :: cs) = '\n' :: univNewlines cs := by
  simp [univNewlines]

theorem mem_escapeQuotes (l : List Char) (c : Char) (h : c ∈ escapeQuotes l) :
    c ∈ l ∨ c = '"' := by
  induction l with
  | nil => simp [escapeQuotes] at h
  | cons d t ih =>
    simp only [escapeQuotes] at h
    split at h
    · rcases List.mem_cons.mp h with h | h
      · exact Or.inr h
      · rcases List.mem_cons.mp h with h | h
        · exact Or.inr h
        · rcases ih h with h1 | h1
          · exact Or.inl (List.mem_cons_of_mem d h1)
          · exact Or.inr h1
    · rcases List.mem_cons.mp h with h | h
      · exact Or.inl (by simp [h])
      · rcases ih h with h1 | h1
        · exact Or.inl (List.mem_cons_of_mem d h1)
        · exact Or.inr h1

theorem mem_joinFields (fs : List String) (c : Char) (h : c ∈ joinFields fs) :
    c = '"' ∨ c = ',' ∨ ∃ f ∈ fs, c ∈ f.data := by
  induction fs with
  | nil => simp [joinFields] at h
  | cons f t ih =>
    cases t with
    | nil =>
      have hEq : joinFields [f] = renderField f := rfl
      rw [hEq] at h
      rcases List.mem_cons.mp h with h | h
      · exact Or.inl h
      · rcases List.mem_append.mp h with h | h
        · rcases mem_escapeQuotes _ _ h with h1 | h1
          · exact Or.inr (Or.inr ⟨f, by simp, h1⟩)
          · exact Or.inl h1
        · exact Or.inl (by simpa using h)
    | cons g u =>
      have hEq : joinFields (f :: g :: u) =
          renderField f ++ ',' :: joinFields (g :: u) := rfl
      rw [hEq] at h
      rcases List.mem_append.mp h with h | h
      · rcases List.mem_cons.mp h with h | h
        · exact Or.inl h
        · rcases List.mem_append.mp h with h | h
          · rcases mem_escapeQuotes _ _ h with h1 | h1
            · exact Or.inr (Or.inr ⟨f, by simp, h1⟩)
            · exact Or.inl h1
          · exact Or.inl (by simpa using h)
      · rcases List.mem_cons.mp h with h | h
        · exact Or.inr (Or.inl h)
        · rcases ih h with h1 | h1 | ⟨q, hq, hcq⟩
          · exact Or.inl h1
          · exact Or.inr (Or.inl h1)
          · exact Or.inr (Or.inr ⟨q, by simp [hq], hcq⟩)

theorem univ_renderTable (rs : List (List String))
    (hcr : ∀ r ∈ rs, ∀ f ∈ r, ∀ c ∈ (f : String).data, c ≠ '\r') :
    univNewlines (renderTable rs) = lfJoin rs := by
  induction rs with
  | nil => rfl
  | cons r t ih =>
    have hl : ∀ c ∈ joinFields r, c ≠ '\r' := by
      intro c hc
      rcases mem_joinFields r c hc with h | h | ⟨f, hf, hcf⟩
      · rw [h]; decide
      · rw [h]; decide
      · exact hcr r (by simp) f hf c hcf
    rw [show renderTable (r :: t) = joinFields r ++ ('\r' :: '\n' :: renderTable t) by
      simp [renderTable, renderLine]]
    rw [univNewlines_append_noCR _ _ hl, univNewlines_crlf,
      ih (fun q hq => hcr q (by simp [hq]))]
    rfl

/-- Inside a quoted field, the escaped text of `f` followed by a closing
quote is consumed into the field accumulator, leaving the machine after
the closing quote (the continuation must not start with a quote). -/
theorem csvRun_quoted_escape (f : List Char) (rest acc : List Char)
    (row : List String) (rows : List (List String))
    (h : ∀ t, rest ≠ '"' :: t) :
    csvRun (escapeQuotes f ++ '"' :: rest) .quoted acc row rows =
      csvRun rest .afterq (acc ++ f) row rows := by
  induction f generalizing acc with
  | nil =>
    cases rest with
    | nil => simp [csvRun, escapeQuotes]
    | cons c cs =>
      have hc : c ≠ '"' := fun hh => h cs (by rw [hh])
      simp [csvRun, escapeQuotes, hc]
  | cons d f ih =>
    by_cases hd : d = '"'
    · subst hd
      rw [show escapeQuotes ('"' :: f) ++ '"' :: rest =
          '"' :: '"' :: (escapeQuotes f ++ '"' :: rest) by simp [escapeQuotes]]
      rw [show csvRun ('"' :: '"' :: (escapeQuotes f ++ '"' :: rest)) .quoted acc row rows =
          csvRun (escapeQuotes f ++ '"' :: rest) .quoted (acc ++ ['"']) row rows by
        simp [csvRun]]
      rw [ih (acc ++ ['"'])]
      simp
    · rw [show escapeQuotes (d :: f) ++ '"' :: rest =
          d :: (escapeQuotes f ++ '"' :: rest) by simp [escapeQuotes, hd]]
      have hstep : ∀ (l : List Char), l ≠ [] →
          csvRun (d :: l) .quoted acc row rows = csvRun l .quoted (acc ++ [d]) row rows := by
        intro l hl
        cases l with
        | nil => exact absurd rfl hl
        | cons e u => simp [csvRun, hd]
      rw [hstep _ (by simp), ih (acc ++ [d])]
      simp

/-- One rendered line (nonempty field list, LF-terminated) is parsed into
exactly its fields, appended as one row. -/
theorem csvRun_line (f : String) (t : List String) (rest : List Char)
    (row : List String) (rows : List (List String)) :
    csvRun (joinFields (f :: t) ++ '\n' :: rest) .fstart [] row rows =
      csvRun rest .fstart [] [] (rows ++ [row ++ (f :: t)]) := by
  induction t generalizing f row with
  | nil =>
    rw [show joinFields [f] ++ '\n' :: rest =
        '"' :: (escapeQuotes f.data ++ '"' :: '\n' :: rest) by
      simp [joinFields, renderField]]
    rw [show csvRun ('"' :: (escapeQuotes f.data ++ '"' :: '\n' :: rest)) .fstart
          [] row rows =
        csvRun (escapeQuotes f.data ++ '"' :: '\n' :: rest) .quoted [] row rows by
      simp [csvRun]]
    rw [csvRun_quoted_escape f.data ('\n' :: rest) [] row rows
      (fun t ht => by simp at ht)]
    simp only [List.nil_append]
    rw [show csvRun ('\n' :: rest) .afterq f.data row rows =
        csvRun rest .fstart [] [] (rows ++ [row ++ [String.mk f.data]]) by
      simp [csvRun]]
  | cons g u ih =>
    rw [show joinFields (f :: g :: u) ++ '\n' :: rest =
        '"' :: (escapeQuotes f.data ++ '"' :: ',' ::
          (joinFields (g :: u) ++ '\n' :: rest)) by
      simp [joinFields, renderField]]
    rw [show csvRun ('"' :: (escapeQuotes f.data ++ '"' :: ',' ::
          (joinFields (g :: u) ++ '\n' :: rest))) .fstart [] row rows =
        csvRun (escapeQuotes f.data ++ '"' :: ',' ::
          (joinFields (g :: u) ++ '\n' :: rest)) .quoted [] row rows by
      simp [csvRun]]
    rw [csvRun_quoted_escape f.data (',' :: (joinFields (g :: u) ++ '\n' :: rest))
      [] row rows (fun t ht => by simp at ht)]
    simp only [List.nil_append]
    rw [show csvRun (',' :: (joinFields (g :: u) ++ '\n' :: rest)) .afterq
          f.data row rows =
        csvRun (joinFields (g :: u) ++ '\n' :: rest) .fstart []
          (row ++ [String.mk f.data]) rows by simp [csvRun]]
    rw [ih g (row ++ [String.mk f.data])]
    simp

/-- A whole LF-joined table of nonempty rows parses back to itself. -/
theorem csvRun_table (rowsData : List (List String))
    (hne : ∀ r ∈ rowsData, r ≠ []) (acc : List (List String)) :
    csvRun (lfJoin rowsData) .fstart [] [] acc = acc ++ rowsData := by
  induction rowsData generalizing acc with
  | nil => simp [lfJoin, csvRun]
  | cons r t ih =>
    obtain ⟨f, fs, hr⟩ : ∃ f fs, r = f :: fs := by
      cases r with
      | nil => exact absurd rfl (hne [] (by simp))
      | cons f fs => exact ⟨f, fs, rfl⟩
    subst hr
    rw [show lfJoin ((f :: fs) :: t) = joinFields (f :: fs) ++ '\n' :: lfJoin t from rfl]
    rw [csvRun_line f fs (lfJoin t) [] acc]
    rw [ih (fun q hq => hne q (by simp [hq])) (acc ++ [[] ++ (f :: fs)])]
    simp

/-- Parsing the LF-joined table, from the initial machine state. -/
theorem parseCsv_lfJoin (rowsData : List (List String))
    (hne : ∀ r ∈ rowsData, r ≠ []) :
    parseCsv (lfJoin rowsData) = rowsData := by
  unfold parseCsv
  rw [csvRun_table rowsData hne []]
  rfl

/-- With every field name inside the header, serializing a dataset
produces exactly the header-order projections of its rows. -/
theorem writeRowsE_eq_map (hdr : List String) (rs : List Record)
    (h : ∀ r ∈ rs, ∀ k ∈ dkeys r, k ∈ hdr) :
    writeRowsE hdr rs =
      .ok (rs.map (fun r => hdr.map (fun hd => (dget r hd).getD ""))) := by
  induction rs with
  | nil => rfl
  | cons r t ih =>
    simp only [writeRowsE, rowToFields_ok hdr r (h r (by simp)),
      ih (fun q hq => h q (by simp [hq])), List.map_cons]

/-- A successful lookup exhibits its binding as a member. -/
theorem dget_some_mem {α : Type} (d : List (String × α)) (k : String) (v : α)
    (h : dget d k = some v) : (k, v) ∈ d := by
  induction d with
  | nil => simp [dget] at h
  | cons p r ih =>
    by_cases hp : p.1 = k
    · simp only [dget, if_pos hp, Option.some.injEq] at h
      rw [List.mem_cons]
      exact Or.inl (Prod.ext_iff.mpr ⟨hp.symm, h.symm⟩)
    · simp only [dget, if_neg hp] at h
      exact List.mem_cons_of_mem p (ih h)

theorem zip_self_map {α β : Type} (l : List α) (g : α → β) :
    List.zip l (l.map g) = l.map (fun a => (a, g a)) := by
  induction l with
  | nil => rfl
  | cons a t ih => simp [List.zip_cons_cons, ih]

/-- Folding dict insertions of distinct keys: the lookup of each inserted
key returns its value, other lookups fall through to the accumulator. -/
theorem dget_foldl_dset (hd : List String) (g : String → String) (r0 : Record)
    (hnd : hd.Nodup) (f : String) :
    dget ((hd.map (fun h => (h, g h))).foldl
        (fun r p => dsetField r p.1 p.2) r0) f =
      if f ∈ hd then some (g f) else dget r0 f := by
  induction hd generalizing r0 with
  | nil => simp
  | cons h t ih =>
    simp only [List.map_cons, List.foldl_cons]
    rw [ih (dsetField r0 h (g h)) (List.nodup_cons.mp hnd).2]
    by_cases hf : f ∈ t
    · simp [hf]
    · by_cases hfh : f = h
      · subst hfh
        simp [hf, dget_dsetField_same]
      · simp [hf, hfh, dget_dsetField_other r0 h f (g h) hfh]

/-- Lookup in a `DictReader` row built by zipping the header with the
header-order projections. -/
theorem dget_zipRow (hdr : List String) (hnd : hdr.Nodup) (g : String → String)
    (f : String) :
    dget (zipRow hdr (hdr.map g)) f = if f ∈ hdr then some (g f) else none := by
  unfold zipRow
  rw [zip_self_map, dget_foldl_dset hdr g [] hnd f]
  rfl

theorem except_bind_ok {ε α β : Type} (a : α) (f : α → Except ε β) :
    (Except.ok a >>= f) = f a := rfl

/-- Loading rows whose keys are pairwise distinct and all fresh for the
accumulator appends them in order. -/
theorem loadAsDict_fresh (rows : List Record) (m0 : MappingTable)
    (kf : Record → String)
    (hkf : ∀ r ∈ rows, dget r ACCOUNT_KEY = some (kf r))
    (hnd : (rows.map kf).Nodup)
    (hfresh : ∀ r ∈ rows, kf r ∉ dkeys m0) :
    (rows.foldlM (fun m r =>
      match dget r ACCOUNT_KEY with
      | none => .error "KeyError: Customer ID"
      | some k => .ok (dsetField m k r)) m0 : Except String MappingTable) =
      .ok (m0 ++ rows.map (fun r => (kf r, r))) := by
  induction rows generalizing m0 with
  | nil =>
    simp only [List.foldlM_nil, List.map_nil, List.append_nil]
    rfl
  | cons r t ih =>
    simp only [List.foldlM_cons, hkf r (by simp)]
    rw [dsetField_of_absent m0 (kf r) r
      (dget_eq_none_of_not_mem _ _ (hfresh r (by simp)))]
    have hnd' := hnd
    simp only [List.map_cons, List.nodup_cons] at hnd'
    rw [except_bind_ok]
    rw [ih (m0 ++ [(kf r, r)]) (fun q hq => hkf q (by simp [hq])) hnd'.2
      (fun q hq => by
        simp only [dkeys, List.map_append, List.mem_append, not_or]
        exact ⟨by simpa [dkeys] using hfresh q (by simp [hq]),
          by
            simp only [List.map_cons, List.map_nil, List.mem_singleton]
            intro hqr
            exact hnd'.1 (hqr ▸ List.mem_map_of_mem kf hq)⟩)]
    simp

/-- Lookup commutes with a value-transforming map over the entries. -/
theorem dget_map_entry {α β : Type} (m : List (String × α)) (t : α → β) (k : String) :
    dget (m.map (fun p => (p.1, t p.2))) k = (dget m k).map t := by
  induction m with
  | nil => rfl
  | cons p r ih =>
    by_cases hp : p.1 = k
    · simp [dget, hp]
    · simp [dget, hp, ih]

/-- For a table with distinct keys, lookups are invariant under permuting
the entries. -/
theorem dget_eq_of_perm {α : Type} (m m' : List (String × α)) (h : m.Perm m')
    (hnd : (dkeys m).Nodup) (k : String) : dget m k = dget m' k := by
  induction h with
  | nil => rfl
  | cons p h ih =>
    simp only [dkeys, List.map_cons, List.nodup_cons] at hnd
    by_cases hp : p.1 = k
    · simp [dget, hp]
    · simp [dget, hp, ih hnd.2]
  | swap p q l =>
    simp only [dkeys, List.map_cons, List.nodup_cons, List.mem_cons, not_or] at hnd
    have hqp : ¬q.1 = p.1 := hnd.1.1
    by_cases hq : q.1 = k
    · have hpk : ¬p.1 = k := fun hh => hqp (hq.trans hh.symm)
      simp [dget, hq, hpk]
    · by_cases hp : p.1 = k
      · simp [dget, hp, hq]
      · simp [dget, hp, hq]
  | trans h1 h2 ih1 ih2 =>
    have hnd2 := ((h1.map Prod.fst).nodup_iff).mp hnd
    rw [ih1 hnd, ih2 hnd2]

/-- C3 (amended): writing a well-formed mapping table (each record holds
Customer ID, Company Name and Account Number, the Customer ID field equals
its key, keys are distinct) whose field values contain no carriage return,
then reloading the file in keyed mode, yields an equivalent mapping: the
same keys, and per key the same three fields. The header may be written in
any iteration order of the mapping-header set, and lookups of the table are
invariant under permuting its rows, so the result is independent of the
order in which rows were written. (Values containing a carriage return are
excluded: the reader's universal-newline translation rewrites them, see the
counterexample.) -/
theorem claim_C3_mapping_roundtrip_amended
    (hdr : List String) (hperm : hdr.Perm MAPPING_HEADERS)
    (m : MappingTable)
    (hwf : ∀ p ∈ m, dget p.2 "Customer ID" = some p.1 ∧
      (dkeys p.2).Perm MAPPING_HEADERS)
    (hnd : (dkeys m).Nodup)
    (hnoCR : ∀ p ∈ m, ∀ q ∈ p.2, ∀ c ∈ (q.2 : String).data, c ≠ '\r')
    (content : String)
    (hw : write_csv hdr (dvalues m) = .ok content) :
    ∃ m2, load_csv_dict content = .ok m2 ∧
      dkeys m2 = dkeys m ∧
      (∀ k r, dget m k = some r → ∃ r2, dget m2 k = some r2 ∧
        ∀ f ∈ MAPPING_HEADERS, dget r2 f = dget r f) ∧
      (∀ m' : MappingTable, m.Perm m' → ∀ k, dget m' k = dget m k) := by
  have hhdrnd : hdr.Nodup := (hperm.nodup_iff).mpr (by decide)
  have hCIDhdr : "Customer ID" ∈ hdr := hperm.mem_iff.mpr (by decide)
  have hkeys_sub : ∀ r ∈ dvalues m, ∀ k ∈ dkeys r, k ∈ hdr := by
    intro r hr k hk
    obtain ⟨a, ha⟩ : ∃ a, (a, r) ∈ m := by simpa [dvalues] using hr
    have hw2 := (hwf (a, r) ha).2
    exact hperm.mem_iff.mpr (hw2.mem_iff.mp hk)
  have hcontent : content = String.mk (renderTable (hdr ::
      (dvalues m).map (fun r => hdr.map (fun hd => (dget r hd).getD "")))) := by
    unfold write_csv at hw
    rw [writeRowsE_eq_map hdr (dvalues m) hkeys_sub] at hw
    simp only [Except.map, Except.ok.injEq] at hw
    exact hw.symm
  have hdata : content.data = renderTable (hdr ::
      (dvalues m).map (fun r => hdr.map (fun hd => (dget r hd).getD ""))) := by
    rw [hcontent]
  obtain ⟨h1, hrest, hhdr⟩ : ∃ h1 hrest, hdr = h1 :: hrest := by
    have hlen : hdr.length = 3 := hperm.length_eq
    cases hdr with
    | nil => simp at hlen
    | cons h1 hrest => exact ⟨h1, hrest, rfl⟩
  obtain ⟨tl, htl⟩ : ∃ tl, renderTable (hdr ::
      (dvalues m).map (fun r => hdr.map (fun hd => (dget r hd).getD ""))) =
        '"' :: tl := by
    subst hhdr
    cases hrest with
    | nil => exact ⟨_, rfl⟩
    | cons g u => exact ⟨_, rfl⟩
  have hstrip : stripBOM content.data = content.data := by
    rw [hdata, htl]
    simp [stripBOM]
  have hCRfree : ∀ row ∈ (hdr ::
      (dvalues m).map (fun r => hdr.map (fun hd => (dget r hd).getD ""))),
      ∀ f ∈ row, ∀ c ∈ (f : String).data, c ≠ '\r' := by
    intro row hrow f hf c hc
    rcases List.mem_cons.mp hrow with hhd | hfr
    · have hM : ∀ g ∈ MAPPING_HEADERS, ∀ c ∈ (g : String).data, c ≠ '\r' := by decide
      exact hM f (hperm.mem_iff.mp (hhd ▸ hf)) c hc
    · obtain ⟨r, hr, hrow2⟩ := List.mem_map.mp hfr
      rw [← hrow2] at hf
      obtain ⟨hd, hhd2, hfd⟩ := List.mem_map.mp hf
      obtain ⟨a, ha⟩ : ∃ a, (a, r) ∈ m := by simpa [dvalues] using hr
      cases hg : dget r hd with
      | none =>
        rw [hg] at hfd
        rw [← hfd] at hc
        simp at hc
      | some v =>
        rw [hg] at hfd
        simp only [Option.getD_some] at hfd
        have hmem := dget_some_mem r hd v hg
        rw [← hfd] at hc
        exact hnoCR (a, r) ha (hd, v) hmem c hc
  have huniv : univNewlines content.data = lfJoin (hdr ::
      (dvalues m).map (fun r => hdr.map (fun hd => (dget r hd).getD ""))) := by
    rw [hdata]
    exact univ_renderTable _ hCRfree
  have hne : ∀ r ∈ (hdr ::
      (dvalues m).map (fun r => hdr.map (fun hd => (dget r hd).getD ""))),
      r ≠ ([] : List String) := by
    intro r hrw
    rcases List.mem_cons.mp hrw with hhd | hfr
    · rw [hhd, hhdr]
      simp
    · obtain ⟨r0, hr0, hmapr⟩ := List.mem_map.mp hfr
      rw [← hmapr, hhdr]
      simp
  have hparse : parseCsv (univNewlines (stripBOM content.data)) = hdr ::
      (dvalues m).map (fun r => hdr.map (fun hd => (dget r hd).getD "")) := by
    rw [hstrip, huniv]
    exact parseCsv_lfJoin _ hne
  have hreader : readerRows (univNewlines (stripBOM content.data)) =
      ((dvalues m).map (fun r => hdr.map (fun hd => (dget r hd).getD ""))).map
        (zipRow hdr) := by
    unfold readerRows
    rw [hparse]
    show (((dvalues m).map
        (fun r => hdr.map (fun hd => (dget r hd).getD ""))).filter
          (fun r => !r.isEmpty)).map (zipRow hdr) = _
    congr 1
    apply List.filter_eq_self.mpr
    intro r hrw
    have hr := hne r (List.mem_cons_of_mem hdr hrw)
    simp [List.isEmpty_iff, hr]
  have hTget : ∀ p ∈ m,
      dget (zipRow hdr (hdr.map (fun hd => (dget p.2 hd).getD ""))) ACCOUNT_KEY =
        some p.1 := by
    intro p hp
    rw [show ACCOUNT_KEY = "Customer ID" from rfl,
      dget_zipRow hdr hhdrnd _ "Customer ID", if_pos hCIDhdr, (hwf p hp).1]
    rfl
  have hrows2 : ((dvalues m).map (fun r => hdr.map (fun hd => (dget r hd).getD ""))).map
      (zipRow hdr) =
      m.map (fun p => zipRow hdr (hdr.map (fun hd => (dget p.2 hd).getD ""))) := by
    simp [dvalues, List.map_map, Function.comp]
  have hload2 : loadAsDict
      (m.map (fun p => zipRow hdr (hdr.map (fun hd => (dget p.2 hd).getD "")))) =
      .ok (m.map (fun p =>
        (p.1, zipRow hdr (hdr.map (fun hd => (dget p.2 hd).getD ""))))) := by
    unfold loadAsDict
    rw [loadAsDict_fresh _ []
      (fun r2 => (dget r2 ACCOUNT_KEY).getD "")
      (by
        intro r2 hr2
        obtain ⟨p, hp, hpr⟩ := List.mem_map.mp hr2
        rw [← hpr]
        simp only []
        rw [hTget p hp]
        rfl)
      (by
        rw [List.map_map]
        have hmc : m.map ((fun r2 => (dget r2 ACCOUNT_KEY).getD "") ∘
            (fun p => zipRow hdr (hdr.map (fun hd => (dget p.2 hd).getD "")))) =
            m.map Prod.fst := by
          apply List.map_congr_left
          intro p hp
          simp only [Function.comp]
          rw [hTget p hp]
          rfl
        rw [hmc]
        exact hnd)
      (by
        intro r2 hr2
        simp [dkeys])]
    rw [List.nil_append, List.map_map]
    congr 1
    apply List.map_congr_left
    intro p hp
    simp only [Function.comp]
    rw [hTget p hp]
    rfl
  refine ⟨m.map (fun p =>
    (p.1, zipRow hdr (hdr.map (fun hd => (dget p.2 hd).getD "")))), ?_, ?_, ?_, ?_⟩
  · unfold load_csv_dict load_csv_list
    rw [hreader, hrows2]
    exact hload2
  · simp [dkeys, List.map_map, Function.comp]
  · intro k r hkr
    have hmap : dget (m.map (fun p =>
        (p.1, zipRow hdr (hdr.map (fun hd => (dget p.2 hd).getD ""))))) k =
        (dget m k).map (fun r => zipRow hdr (hdr.map (fun hd => (dget r hd).getD ""))) :=
      dget_map_entry m
        (fun r => zipRow hdr (hdr.map (fun hd => (dget r hd).getD ""))) k
    refine ⟨zipRow hdr (hdr.map (fun hd => (dget r hd).getD "")), ?_, ?_⟩
    · rw [hmap, hkr]
      rfl
    · intro f hfM
      have hwfr := hwf (k, r) (dget_some_mem m k r hkr)
      have hfhdr : f ∈ hdr := hperm.mem_iff.mpr hfM
      rw [dget_zipRow hdr hhdrnd _ f, if_pos hfhdr]
      obtain ⟨v, hv⟩ := mem_dkeys_exists_dget r f (hwfr.2.mem_iff.mpr hfM)
      rw [hv]
      rfl
  · intro m' hmp k
    exact (dget_eq_of_perm m m' hmp hnd k).symm

/-- C3 witness: one concrete mapping entry written and reloaded. -/
theorem claim_C3_mapping_roundtrip_amended_witness :
    ∃ m2, load_csv_dict
        ("\"Customer ID\",\"Company Name\",\"Account Number\"\r\n" ++
         "\"C1\",\"Acme\",\"ACC-1\"\r\n") = .ok m2 ∧
      dkeys m2 = dkeys [("C1", [("Customer ID", "C1"), ("Company Name", "Acme"),
                                ("Account Number", "ACC-1")])] ∧
      (∀ k r, dget [("C1", [("Customer ID", "C1"), ("Company Name", "Acme"),
                            ("Account Number", "ACC-1")])] k = some r →
        ∃ r2, dget m2 k = some r2 ∧
          ∀ f ∈ MAPPING_HEADERS, dget r2 f = dget r f) ∧
      (∀ m' : MappingTable,
        List.Perm [("C1", [("Customer ID", "C1"), ("Company Name", "Acme"),
                           ("Account Number", "ACC-1")])] m' →
        ∀ k, dget m' k =
          dget [("C1", [("Customer ID", "C1"), ("Company Name", "Acme"),
                        ("Account Number", "ACC-1")])] k) :=
  claim_C3_mapping_roundtrip_amended MAPPING_HEADERS (by decide)
    [("C1", [("Customer ID", "C1"), ("Company Name", "Acme"),
             ("Account Number", "ACC-1")])]
    (by decide) (by decide) (by decide)
    ("\"Customer ID\",\"Company Name\",\"Account Number\"\r\n" ++
     "\"C1\",\"Acme\",\"ACC-1\"\r\n")
    (by decide)

/-- C3 counterexample: the round trip is not exact for every mapping table.
A Company Name containing a carriage return is written verbatim inside its
quotes, but the reader opens the file in universal-newline text mode, which
rewrites the lone CR to LF before the CSV layer runs: the reloaded field is
`a\nb`, not the original `a\rb`. -/
theorem claim_C3_counterexample :
    write_csv MAPPING_HEADERS
        (dvalues [("X", [("Customer ID", "X"), ("Company Name", "a\rb"),
                         ("Account Number", "1")])]) =
      .ok ("\"Customer ID\",\"Company Name\",\"Account Number\"\r\n" ++
           "\"X\",\"a\rb\",\"1\"\r\n") ∧
    load_csv_dict
        ("\"Customer ID\",\"Company Name\",\"Account Number\"\r\n" ++
         "\"X\",\"a\rb\",\"1\"\r\n") =
      .ok [("X", [("Customer ID", "X"), ("Company Name", "a\nb"),
                  ("Account Number", "1")])] ∧
    (some "a\nb" ≠ some "a\rb") ∧
    dget [("Customer ID", "X"), ("Company Name", "a\rb"),
          ("Account Number", "1")] "Company Name" = some "a\rb" ∧
    dget [("Customer ID", "X"), ("Company Name", "a\nb"),
          ("Account Number", "1")] "Company Name" = some "a\nb" := by
  decide
